import Mathlib

/-!
# Verification of the binder-splitter core of `Tabs/Splitter.py`

This file gives a shallow embedding of the rule-driven PDF binder splitter
(`src/Tabs/Splitter.py`) and settles the frozen claims about it.

Modelling conventions, used consistently below:

* Python dicts used as caches (`_TEXT_CACHE_RAW`, `_TEXT_CACHE_CLEAN`,
  `_OCR_RESULT_CACHE`, `_OCR_PAGE_DPI`, `_OCR_PAGE_CONF`, the per-binder disk
  cache) become association lists with first-occurrence lookup; an update
  conses a fresh pair in front.
* Everything that touches the outside world — PyMuPDF text extraction,
  Tesseract OCR, page geometry, region-band extraction, and the disk-backed
  template cache — is abstracted as a component of an environment `Env`
  passed to every function.  Theorems quantify over the environment, so they
  hold for every behaviour of those collaborators; counterexamples pick a
  concrete environment.
* Compiled regular expressions of the rule set are opaque pattern ids
  (`Pat := Nat`); `Env.msearch` plays the role of `pattern.search(text)`,
  returning the start position of the first match, if any.  The two concrete
  regexes hard-coded in `signature_end_index` and the date/time scans in
  `find_range_end` are implemented directly over the cleaned text.
* Python floats (OCR confidences, `near_bottom_frac`) are modelled as `ℚ`.
* The cooperative cancellation flag `_CANCELLED` is modelled as never set:
  no claim under consideration involves cancellation.
* Memoisation layers that are semantically transparent under the program's
  own invalidation discipline (`_PATTERN_HIT_CACHE`, `_PATTERN_FIRST_CACHE`,
  `_REGION_TEXT_CACHE`) are not modelled; the functions they memoise are.
-/

namespace Splitter

/-! ## Association-list maps (the Python dict caches) -/

/-- First-occurrence lookup in an association list (Python `d.get(k)`). -/
def mfind {α β : Type} [DecidableEq α] : List (α × β) → α → Option β
  | [], _ => none
  | (k, v) :: rest, k' => if k' = k then some v else mfind rest k'

/-- `d.get(k, dflt)`. -/
def mgetD {α β : Type} [DecidableEq α] (m : List (α × β)) (k : α) (dflt : β) : β :=
  (mfind m k).getD dflt

/-- `d[k] = v`: shadowing update. -/
def mset {α β : Type} (m : List (α × β)) (k : α) (v : β) : List (α × β) :=
  (k, v) :: m

theorem mfind_mset_self {α β : Type} [DecidableEq α] (m : List (α × β)) (k : α) (v : β) :
    mfind (mset m k v) k = some v := by
  simp [mset, mfind]

theorem mfind_mset_ne {α β : Type} [DecidableEq α] (m : List (α × β)) (k k' : α) (v : β)
    (h : k' ≠ k) : mfind (mset m k v) k' = mfind m k' := by
  simp [mset, mfind, h]

/-! ## `_clean_text` (Splitter.py lines 690-694)

```python
def _clean_text(s: str) -> str:
    if not s: return ""
    s = s.upper().replace("’","'")
    s = re.sub(r"[^A-Z0-9#+/]+"," ",s)
    return re.sub(r"\s+"," ",s).strip()
```

`str.upper()` is modelled character-wise via `Char.toUpper` (identical on the
ASCII range, which is all the canonical charset cares about).  The first
substitution replaces every maximal run of characters outside `[A-Z0-9#+/]`
by one space; the second collapses whitespace and strips the ends.  The net
effect is: uppercase, split into maximal runs of charset characters, join
the runs with single spaces. -/

theorem length_dropWhile_le' {α : Type} (p : α → Bool) (l : List α) :
    (l.dropWhile p).length ≤ l.length := by
  induction l with
  | nil => simp
  | cons a t ih =>
    simp only [List.dropWhile]
    cases p a
    · simp
    · simp
      omega

/-- Membership in the canonical charset `[A-Z0-9#+/]` (by code point:
`A`-`Z` = 65-90, `0`-`9` = 48-57, `#` = 35, `+` = 43, `/` = 47). -/
def keepChar (c : Char) : Bool :=
  (65 ≤ c.toNat && c.toNat ≤ 90) || (48 ≤ c.toNat && c.toNat ≤ 57) ||
  c.toNat == 35 || c.toNat == 43 || c.toNat == 47

/-- The `.replace("’","'")` step, character-wise. -/
def quoteFix (c : Char) : Char := if c = '’' then '\'' else c

/-- Accumulator pass splitting a character list into its maximal runs of
charset characters; `cur` holds the run in progress. -/
def cleanToksGo (cur : List Char) : List Char → List (List Char)
  | [] => if cur.isEmpty then [] else [cur]
  | c :: rest =>
    if keepChar c then cleanToksGo (cur ++ [c]) rest
    else if cur.isEmpty then cleanToksGo [] rest
    else cur :: cleanToksGo [] rest

/-- Maximal runs of charset characters (the tokens left by the two `re.sub`s). -/
def cleanToks (l : List Char) : List (List Char) := cleanToksGo [] l

/-- Join tokens with single spaces (no leading/trailing space). -/
def joinSp : List (List Char) → List Char
  | [] => []
  | [t] => t
  | t :: ts => t ++ ' ' :: joinSp ts

/-- `_clean_text` (Splitter.py line 690). -/
def _clean_text (s : String) : String :=
  ⟨joinSp (cleanToks ((s.data.map Char.toUpper).map quoteFix))⟩

/-! ### Facts about `_clean_text` -/

theorem keepChar_toNat_lt (c : Char) (h : keepChar c = true) : c.toNat < 97 := by
  simp only [keepChar, Bool.or_eq_true, Bool.and_eq_true, decide_eq_true_eq, beq_iff_eq] at h
  omega

theorem toUpper_fix (c : Char) (h : c.toNat < 97) : Char.toUpper c = c := by
  unfold Char.toUpper
  simp
  omega

theorem quoteFix_fix (c : Char) (h : c.toNat < 97) : quoteFix c = c := by
  unfold quoteFix
  have : c ≠ '’' := by
    intro hc
    subst hc
    simp only [Char.toNat] at h
    exact absurd h (by decide)
  simp [this]

theorem takeWhile_all {α : Type} (p : α → Bool) (l : List α) (h : ∀ c ∈ l, p c = true) :
    l.takeWhile p = l := by
  induction l with
  | nil => simp
  | cons a t ih =>
    simp only [List.takeWhile_cons, h a (by simp)]
    simp [ih fun c hc => h c (by simp [hc])]

theorem dropWhile_all {α : Type} (p : α → Bool) (l : List α) (h : ∀ c ∈ l, p c = true) :
    l.dropWhile p = [] := by
  induction l with
  | nil => simp
  | cons a t ih =>
    simp only [List.dropWhile_cons, h a (by simp)]
    simp [ih fun c hc => h c (by simp [hc])]

theorem takeWhile_append_stop {α : Type} (p : α → Bool) (l : List α) (x : α) (rest : List α)
    (hl : ∀ c ∈ l, p c = true) (hx : p x = false) :
    (l ++ x :: rest).takeWhile p = l ∧ (l ++ x :: rest).dropWhile p = x :: rest := by
  induction l with
  | nil => simp [List.takeWhile_cons, List.dropWhile_cons, hx]
  | cons a t ih =>
    have ha : p a = true := hl a (by simp)
    have ⟨iht, ihd⟩ := ih fun c hc => hl c (by simp [hc])
    simp [List.takeWhile_cons, List.dropWhile_cons, ha, iht, ihd]

theorem cleanToksGo_sound (l : List Char) :
    ∀ cur, (∀ c ∈ cur, keepChar c = true) →
      ∀ t ∈ cleanToksGo cur l, t ≠ [] ∧ ∀ c ∈ t, keepChar c = true := by
  induction l with
  | nil =>
    intro cur hcur t ht
    rw [cleanToksGo] at ht
    by_cases he : cur.isEmpty
    · simp [he] at ht
    · rw [if_neg he] at ht
      simp only [List.mem_singleton] at ht
      subst ht
      exact ⟨fun h => by simp [h] at he, hcur⟩
  | cons c rest ih =>
    intro cur hcur t ht
    rw [cleanToksGo] at ht
    by_cases hk : keepChar c = true
    · rw [if_pos hk] at ht
      refine ih (cur ++ [c]) ?_ t ht
      intro d hd
      rcases List.mem_append.mp hd with hd | hd
      · exact hcur d hd
      · simp only [List.mem_singleton] at hd
        subst hd
        exact hk
    · rw [if_neg (by simpa using hk)] at ht
      by_cases he : cur.isEmpty
      · rw [if_pos he] at ht
        exact ih [] (by simp) t ht
      · rw [if_neg he] at ht
        rcases List.mem_cons.mp ht with rfl | ht
        · exact ⟨fun h => by simp [h] at he, hcur⟩
        · exact ih [] (by simp) t ht

/-- Every token of `cleanToks` is a nonempty run of charset characters. -/
theorem cleanToks_sound (l : List Char) :
    ∀ t ∈ cleanToks l, t ≠ [] ∧ ∀ c ∈ t, keepChar c = true :=
  cleanToksGo_sound l [] (by simp)

/-- Scanning past a run of charset characters accumulates it. -/
theorem cleanToksGo_keepRun (t : List Char) (hkeep : ∀ c ∈ t, keepChar c = true) :
    ∀ cur rest, cleanToksGo cur (t ++ rest) = cleanToksGo (cur ++ t) rest := by
  induction t with
  | nil => intro cur rest; simp
  | cons c t' ih =>
    intro cur rest
    have hc : keepChar c = true := hkeep c (by simp)
    show cleanToksGo cur (c :: (t' ++ rest)) = _
    rw [cleanToksGo, if_pos hc, ih (fun d hd => hkeep d (by simp [hd]))]
    simp

/-- Re-tokenising a space-joined list of nonempty charset tokens gives the
tokens back. -/
theorem cleanToks_joinSp (ts : List (List Char))
    (h : ∀ t ∈ ts, t ≠ [] ∧ ∀ c ∈ t, keepChar c = true) :
    cleanToks (joinSp ts) = ts := by
  induction ts with
  | nil => simp [joinSp, cleanToks, cleanToksGo]
  | cons t ts ih =>
    have ⟨hne, hkeep⟩ := h t (by simp)
    have hnemp : t.isEmpty = false := by
      cases t with
      | nil => exact absurd rfl hne
      | cons a b => rfl
    cases ts with
    | nil =>
      show cleanToks t = [t]
      rw [cleanToks, show t = t ++ [] by simp, cleanToksGo_keepRun t hkeep [] []]
      simp [cleanToksGo, hnemp]
    | cons u ts' =>
      show cleanToks (t ++ ' ' :: joinSp (u :: ts')) = _
      rw [cleanToks, cleanToksGo_keepRun t hkeep [] _]
      simp only [List.nil_append]
      rw [cleanToksGo, if_neg (by decide), if_neg (by simp [hnemp])]
      rw [show cleanToksGo [] (joinSp (u :: ts')) = cleanToks (joinSp (u :: ts')) from rfl]
      rw [ih fun x hx => h x (by simp [hx])]

/-- Every character of a space-join of charset tokens is a charset character
or the space. -/
theorem mem_joinSp (ts : List (List Char))
    (h : ∀ t ∈ ts, t ≠ [] ∧ ∀ c ∈ t, keepChar c = true) :
    ∀ c ∈ joinSp ts, keepChar c = true ∨ c = ' ' := by
  induction ts with
  | nil => simp [joinSp]
  | cons t ts ih =>
    intro c hcmem
    cases ts with
    | nil => exact Or.inl ((h t (by simp)).2 c hcmem)
    | cons u ts' =>
      rcases List.mem_append.mp hcmem with hcl | hcr
      · exact Or.inl ((h t (by simp)).2 c hcl)
      · rcases List.mem_cons.mp hcr with rfl | hcr
        · exact Or.inr rfl
        · exact ih (fun t ht => h t (by simp [ht])) c hcr

theorem map_id_of_fix {α : Type} (f : α → α) (l : List α) (h : ∀ c ∈ l, f c = c) :
    l.map f = l := by
  induction l with
  | nil => rfl
  | cons a t ih =>
    simp only [List.map_cons, h a (by simp), ih fun c hc => h c (by simp [hc])]

/-- **C5**: `_clean_text` is idempotent: cleaning a cleaned string is the
identity. -/
theorem clean_text_idem (s : String) : _clean_text (_clean_text s) = _clean_text s := by
  unfold _clean_text
  set ts := cleanToks ((s.data.map Char.toUpper).map quoteFix) with hts
  have hsound : ∀ t ∈ ts, t ≠ [] ∧ ∀ c ∈ t, keepChar c = true :=
    cleanToks_sound _
  have hchars : ∀ c ∈ joinSp ts, keepChar c = true ∨ c = ' ' := mem_joinSp ts hsound
  have hlt : ∀ c ∈ joinSp ts, c.toNat < 97 := by
    intro c hc
    rcases hchars c hc with hk | rfl
    · exact keepChar_toNat_lt c hk
    · decide
  have hmap1 : (joinSp ts).map Char.toUpper = joinSp ts :=
    map_id_of_fix _ _ fun c hc => toUpper_fix c (hlt c hc)
  have hmap2 : (joinSp ts).map quoteFix = joinSp ts :=
    map_id_of_fix _ _ fun c hc => quoteFix_fix c (hlt c hc)
  show String.mk (joinSp (cleanToks (((joinSp ts).map Char.toUpper).map quoteFix))) = _
  rw [hmap1, hmap2, cleanToks_joinSp ts hsound]

/-! ## String helpers (Python `in`, `str.replace`, `str.strip`, `str.lower`) -/

/-- Python `needle in hay` on character lists. -/
def occursInL : List Char → List Char → Bool
  | needle, [] => needle.isEmpty
  | needle, c :: rest => needle.isPrefixOf (c :: rest) || occursInL needle rest

/-- Python `needle in hay`. -/
def occursIn (needle hay : String) : Bool := occursInL needle.data hay.data

theorem isPrefixOf_append_self (l t : List Char) : l.isPrefixOf (l ++ t) = true := by
  induction l with
  | nil => simp [List.isPrefixOf]
  | cons a r ih => simp [List.isPrefixOf, ih]

theorem isPrefixOf_mono_append (n : List Char) :
    ∀ a t : List Char, n.isPrefixOf a = true → n.isPrefixOf (a ++ t) = true := by
  induction n with
  | nil => intro a t _; simp [List.isPrefixOf]
  | cons c n' ih =>
    intro a t h
    cases a with
    | nil => simp [List.isPrefixOf] at h
    | cons c' a' =>
      simp only [List.isPrefixOf, Bool.and_eq_true] at h ⊢
      exact ⟨h.1, ih a' t h.2⟩

theorem occursInL_of_left (n : List Char) :
    ∀ a t : List Char, occursInL n a = true → occursInL n (a ++ t) = true := by
  intro a
  induction a with
  | nil =>
    intro t h
    simp only [occursInL, List.isEmpty_iff] at h
    subst h
    cases t with
    | nil => simp [occursInL]
    | cons c r => simp [occursInL, List.isPrefixOf]
  | cons c r ih =>
    intro t h
    simp only [occursInL, Bool.or_eq_true] at h ⊢
    rcases h with h | h
    · exact Or.inl (isPrefixOf_mono_append _ _ t h)
    · exact Or.inr (ih t h)

/-- `needle` occurs in `a ++ needle ++ b`. -/
theorem occursInL_middle (n a b : List Char) : occursInL n (a ++ n ++ b) = true := by
  induction a with
  | nil =>
    cases n with
    | nil =>
      cases b with
      | nil => simp [occursInL]
      | cons c r => simp [occursInL, List.isPrefixOf]
    | cons c r =>
      simp only [List.nil_append, List.cons_append, occursInL, Bool.or_eq_true]
      exact Or.inl (isPrefixOf_append_self (c :: r) b)
  | cons c r ih =>
    simp only [List.cons_append, occursInL, Bool.or_eq_true]
    exact Or.inr ih

/-- Python `str.replace("YY", yy)`: replace non-overlapping occurrences left
to right.  Only the `"YY"` needle is ever used by the splitter
(Splitter.py lines 1756, 1767, 1778). -/
def replaceYYL (yy : List Char) : List Char → List Char
  | [] => []
  | [c] => [c]
  | c :: d :: rest =>
    if c = 'Y' ∧ d = 'Y' then yy ++ replaceYYL yy rest
    else c :: replaceYYL yy (d :: rest)

/-- Trailing strip: drop characters satisfying `p` from the end. -/
def dropEndWhile (p : Char → Bool) (l : List Char) : List Char :=
  (l.reverse.dropWhile p).reverse

/-- Python `str.strip()` (whitespace both ends). -/
def pyStripL (l : List Char) : List Char :=
  dropEndWhile Char.isWhitespace (l.dropWhile Char.isWhitespace)

/-- `hay.endswith(needle)` on lists. -/
def endsWithL (hay needle : List Char) : Bool :=
  needle.reverse.isPrefixOf hay.reverse

/-- The OS-invalid filename characters `\\/:*?"<>|`
(`INVALID_CHARS`, Splitter.py line 1726). -/
def isInvalidFileChar (c : Char) : Bool :=
  c == '\\' || c == '/' || c == ':' || c == '*' || c == '?' ||
  c == '"' || c == '<' || c == '>' || c == '|'

/-- `sanitize_filename` (Splitter.py lines 1727-1728): map invalid characters
to `-`, strip trailing spaces/dots, default to `"document"`. -/
def sanitize_filename (name : String) : String :=
  let cleaned := dropEndWhile (fun c => c == ' ' || c == '.')
    (name.data.map fun ch => if isInvalidFileChar ch then '-' else ch)
  if cleaned.isEmpty then "document" else ⟨cleaned⟩

/-- `ensure_pdf_ext` (Splitter.py lines 1730-1732), on lists. -/
def ensure_pdf_extL (l : List Char) : List Char :=
  let st := pyStripL l
  if endsWithL (st.map Char.toLower) ".pdf".data then st else st ++ ".pdf".data

/-- `ensure_pdf_ext` (Splitter.py lines 1730-1732). -/
def ensure_pdf_ext (name : String) : String := ⟨ensure_pdf_extL name.data⟩

/-- The filename actually written by `save_range`/`save_single`
(Splitter.py lines 1756-1757 and 1767-1768): substitute `YY` by the current
two-digit year (`yy`, a parameter here since wall-clock time is external),
then force the `.pdf` extension.  No other transformation is applied before
the name reaches `unique_path`. -/
def saveOutName (out_name yy : String) : String :=
  ⟨ensure_pdf_extL (replaceYYL yy.data out_name.data)⟩

/-- `os.path.splitext` restricted to plain filenames (no directory
separators): leading dots never start an extension; the extension is the
part from the last remaining dot on. -/
def splitextL (l : List Char) : List Char × List Char :=
  let lead := l.takeWhile (fun c => c == '.')
  let rest := l.dropWhile (fun c => c == '.')
  if rest.contains '.' then
    let rev := rest.reverse
    let tailRev := rev.takeWhile (fun c => c != '.')
    let rootRev := (rev.dropWhile (fun c => c != '.')).drop 1
    (lead ++ rootRev.reverse, '.' :: tailRev.reverse)
  else (l, [])

/-- `_tag_if_missed` (Splitter.py lines 1734-1737). -/
def _tag_if_missed (filename : String) (missed : Bool) : String :=
  if !missed then filename
  else
    let be := splitextL filename.data
    ⟨be.1 ++ (" - missed end cue".data ++ be.2)⟩

/-! ### Facts about the output-name pipeline -/

/-- Two adjacent `Y` characters somewhere in the list. -/
def hasYY (l : List Char) : Bool := occursInL ['Y', 'Y'] l

theorem singletonY_isPrefixOf_head (r : List Char) (h : (['Y'] : List Char).isPrefixOf r = true) :
    r.head? = some 'Y' := by
  cases r with
  | nil => simp [List.isPrefixOf] at h
  | cons d rest =>
    simp only [List.isPrefixOf, Bool.and_eq_true, beq_iff_eq] at h
    simp [h.1.symm]

theorem replaceYY_head (yy : List Char) :
    ∀ l : List Char, (replaceYYL yy l).head? = some 'Y' → l.head? = some 'Y' := by
  intro l
  induction l using replaceYYL.induct yy with
  | case1 => simp [replaceYYL]
  | case2 c => simp [replaceYYL]
  | case3 c d rest hcd ih =>
    rw [replaceYYL, if_pos hcd]
    intro _
    simp [hcd.1]
  | case4 c d rest hcd ih =>
    rw [replaceYYL, if_neg hcd]
    intro h
    simp only [List.head?_cons, Option.some.injEq] at h
    simp [h]

theorem hasYY_append_of_noY (yy r : List Char) (hyy : ∀ c ∈ yy, c ≠ 'Y') :
    hasYY (yy ++ r) = hasYY r := by
  induction yy with
  | nil => rfl
  | cons c yy' ih =>
    have hc : c ≠ 'Y' := hyy c (by simp)
    show hasYY (c :: (yy' ++ r)) = hasYY r
    rw [hasYY, occursInL]
    have : (['Y', 'Y'] : List Char).isPrefixOf (c :: (yy' ++ r)) = false := by
      simp only [List.isPrefixOf, Bool.and_eq_true, Bool.and_eq_false_iff]
      left
      simp [Ne.symm hc]
    rw [this]
    simp only [Bool.false_or]
    exact ih fun x hx => hyy x (by simp [hx])

/-- Replacing `YY` by a `Y`-free string leaves no adjacent `YY` anywhere. -/
theorem replaceYY_no_hasYY (yy : List Char) (hyy : ∀ c ∈ yy, c ≠ 'Y') :
    ∀ l : List Char, hasYY (replaceYYL yy l) = false := by
  intro l
  induction l using replaceYYL.induct yy with
  | case1 => simp [replaceYYL, hasYY, occursInL]
  | case2 c => simp [replaceYYL, hasYY, occursInL, List.isPrefixOf]
  | case3 c d rest hcd ih =>
    rw [replaceYYL, if_pos hcd]
    rw [hasYY_append_of_noY yy _ hyy]
    exact ih
  | case4 c d rest hcd ih =>
    rw [replaceYYL, if_neg hcd]
    rw [hasYY, occursInL]
    simp only [Bool.or_eq_false_iff]
    refine ⟨?_, ih⟩
    by_contra hpre
    rw [Bool.not_eq_false] at hpre
    simp only [List.isPrefixOf, Bool.and_eq_true, beq_iff_eq] at hpre
    have hc : c = 'Y' := hpre.1.symm
    have hd : (d :: rest).head? = some 'Y' :=
      replaceYY_head yy (d :: rest) (singletonY_isPrefixOf_head _ hpre.2)
    simp only [List.head?_cons, Option.some.injEq] at hd
    exact hcd ⟨hc, hd⟩

theorem occursInL_dropWhile (n : List Char) (p : Char → Bool) (l : List Char)
    (h : occursInL n (l.dropWhile p) = true) : occursInL n l = true := by
  induction l with
  | nil => simpa using h
  | cons a t ih =>
    rw [List.dropWhile_cons] at h
    by_cases hp : p a = true
    · rw [if_pos hp] at h
      rw [occursInL, Bool.or_eq_true]
      exact Or.inr (ih h)
    · rw [if_neg hp] at h
      exact h

theorem dropEndWhile_append (p : Char → Bool) (l : List Char) :
    l = dropEndWhile p l ++ (l.reverse.takeWhile p).reverse := by
  have h := (List.takeWhile_append_dropWhile (p := p) (l := l.reverse)).symm
  calc l = l.reverse.reverse := (List.reverse_reverse l).symm
    _ = (l.reverse.takeWhile p ++ l.reverse.dropWhile p).reverse := by rw [← h]
    _ = dropEndWhile p l ++ (l.reverse.takeWhile p).reverse := by
        rw [List.reverse_append]; rfl

theorem hasYY_dropEndWhile (p : Char → Bool) (l : List Char)
    (h : hasYY (dropEndWhile p l) = true) : hasYY l = true := by
  have h2 := occursInL_of_left ['Y', 'Y'] (dropEndWhile p l) (l.reverse.takeWhile p).reverse h
  rw [← dropEndWhile_append p l] at h2
  exact h2

theorem hasYY_pyStripL (l : List Char) (h : hasYY l = false) : hasYY (pyStripL l) = false := by
  by_contra hc
  rw [Bool.not_eq_false] at hc
  have h1 : hasYY (l.dropWhile Char.isWhitespace) = true := hasYY_dropEndWhile _ _ hc
  have h2 : hasYY l = true := occursInL_dropWhile _ _ _ h1
  rw [h] at h2
  exact Bool.false_ne_true h2

theorem hasYY_cons_false_iff (c : Char) (t : List Char) :
    hasYY (c :: t) = false ↔
      ((['Y', 'Y'] : List Char).isPrefixOf (c :: t) = false ∧ hasYY t = false) := by
  rw [hasYY, occursInL, Bool.or_eq_false_iff]
  exact Iff.rfl

theorem hasYY_append_headSafe (a b : List Char) (ha : hasYY a = false)
    (hb : hasYY b = false) (hd : b.head? ≠ some 'Y') : hasYY (a ++ b) = false := by
  induction a with
  | nil => simpa using hb
  | cons c a' ih =>
    have hsplit := (hasYY_cons_false_iff c a').mp ha
    have ha' : hasYY a' = false := hsplit.2
    show hasYY (c :: (a' ++ b)) = false
    rw [hasYY_cons_false_iff]
    refine ⟨?_, ih ha'⟩
    by_contra hpre
    rw [Bool.not_eq_false] at hpre
    simp only [List.isPrefixOf, Bool.and_eq_true, beq_iff_eq] at hpre
    have hc : c = 'Y' := hpre.1.symm
    have hhead : (a' ++ b).head? = some 'Y' := singletonY_isPrefixOf_head _ hpre.2
    cases a' with
    | nil =>
      simp only [List.nil_append] at hhead
      exact hd hhead
    | cons c2 a'' =>
      simp only [List.cons_append, List.head?_cons, Option.some.injEq] at hhead
      have hcontra := hsplit.1
      simp [List.isPrefixOf, hc, hhead] at hcontra

/-- **C2, counterexample**: `save_range`/`save_single` do *not* sanitize
OS-invalid characters: an output name containing `:` is written verbatim
(with only the `YY` substitution and the forced `.pdf` extension applied).
`sanitize_filename` is called only in the preview/rename flow
(Splitter.py line 1945), never on the auto-save path. -/
theorem C2_sanitize_counterexample :
    saveOutName "Policy:YY Binder" "25" = "Policy:25 Binder.pdf" ∧
    (saveOutName "Policy:YY Binder" "25").data.any isInvalidFileChar = true := by
  constructor
  · rfl
  · decide

/-- **C2, amended**: the auto-saved filename has every `YY` substituted with
the two-digit year and the `.pdf` extension forced (case-insensitively):
the result never contains `YY` (whenever the substituted year string itself
contains no `Y`) and always lower-ends with `.pdf`.  OS-invalid characters
are not sanitized on this path. -/
theorem C2_yy_and_pdf_ext (name yy : String) (hyy : ∀ c ∈ yy.data, c ≠ 'Y') :
    occursIn "YY" (saveOutName name yy) = false ∧
    endsWithL ((saveOutName name yy).data.map Char.toLower) ".pdf".data = true := by
  have hdata : (saveOutName name yy).data = ensure_pdf_extL (replaceYYL yy.data name.data) := rfl
  have hrep : hasYY (replaceYYL yy.data name.data) = false :=
    replaceYY_no_hasYY yy.data hyy name.data
  have hst : hasYY (pyStripL (replaceYYL yy.data name.data)) = false := hasYY_pyStripL _ hrep
  have hbase : occursIn "YY" (saveOutName name yy) = hasYY (saveOutName name yy).data := rfl
  rw [hbase, hdata, ensure_pdf_extL]
  split
  · rename_i hcond
    exact ⟨hst, hcond⟩
  · constructor
    · refine hasYY_append_headSafe _ _ hst (by decide) (by decide)
    · rw [List.map_append]
      have hpdf : (".pdf".data.map Char.toLower) = ".pdf".data := by decide
      rw [hpdf, endsWithL, List.reverse_append]
      exact isPrefixOf_append_self _ _

/-- **C2, witness**: the amended pipeline property at a concrete input. -/
theorem C2_yy_and_pdf_ext_witness :
    occursIn "YY" (saveOutName "Policy:YY Binder" "25") = false ∧
    endsWithL ((saveOutName "Policy:YY Binder" "25").data.map Char.toLower) ".pdf".data = true :=
  C2_yy_and_pdf_ext "Policy:YY Binder" "25" (by decide)

/-! ## Data model

`Pat` is an opaque compiled-regex id; `Env` collects every external
collaborator (document, Tesseract, disk template store, wall clock is not
needed); `SpState` is the module-level mutable state of `Splitter.py`
(lines 96-105). -/

/-- Opaque id of a compiled regex from the rule file. -/
abbrev Pat := Nat

/-- An OCR result entry `{raw, clean, dpi, avg_conf, length, scope,
image_sig}` (spec §3; built at Splitter.py lines 910-918). -/
structure OcrEntry where
  raw : String
  clean : String
  dpi : Nat
  conf : Option ℚ
  length : Nat
  scope : String
  image_sig : Option String
deriving DecidableEq

/-- One attempt of the render-crop-preprocess-Tesseract pipeline
(Splitter.py lines 824-895), abstracted: `sigReached` is whether control
reached the signature computation (line 842) before any exception; `res` is
`some (raw, avg_conf)` on success and `none` when an exception was raised
(the `except` at line 896). -/
structure OcrAttempt where
  sigReached : Bool
  sig : Option String
  res : Option (String × Option ℚ)

/-- The external collaborators of the splitter core. -/
structure Env where
  /-- number of pages of the open binder (`len(_DOC)`). -/
  nPages : Nat
  /-- `_ALLOW_OCR`. -/
  allowOcr : Bool
  /-- `pattern.search(text)`: position of the first match of a compiled rule
  pattern, if any. -/
  msearch : Pat → String → Option Nat
  /-- `_DOC[i].get_text("text").strip()` (page_text, line 954). -/
  nativeText : Nat → String
  /-- `_page_text_blocks` (lines 696-708). -/
  blocksText : Nat → String
  /-- `_page_text_words` (lines 710-718). -/
  wordsText : Nat → String
  /-- one OCR attempt at (page, scope, pct, dpi). -/
  ocrRun : Nat → String → ℚ → Nat → OcrAttempt
  /-- `_looks_like_table` (lines 1476-1526, pure document geometry). -/
  tableLike : Nat → Bool
  /-- `_get_region_clean` (lines 995-1042, document access + caching). -/
  regionClean : Nat → ℚ → ℚ → String
  /-- `_template_match` (lines 385-411, disk-backed template store; reads
  are abstracted since every template write is exception-swallowed and can
  silently fail). Arguments: rule name, seed text, optional image sig. -/
  tmatch : String → String → Option String → Option OcrEntry
  /-- `_page_signature` (lines 515-533). -/
  pageSigOracle : Nat → String → Option String

/-- The module-level mutable state (Splitter.py lines 96-105).
`tmplEvents` is an observational log of `_template_save` calls (the real
writes go to disk and are exception-swallowed, lines 343-355); `ocrRuns` and
`extractRuns` instrument how much OCR/extraction work has been performed. -/
structure SpState where
  rawCache : List (Nat × String)
  cleanCache : List (Nat × String)
  ocrCache : List ((Nat × String) × OcrEntry)
  pageDpi : List ((Nat × String) × Nat)
  pageConf : List ((Nat × String) × ℚ)
  pageSig : List ((Nat × String) × String)
  diskCache : List ((Nat × String) × OcrEntry)
  forcedOcr : List (Nat × String)
  lookbackHints : List ((String × Nat) × Bool)
  tmplEvents : List (String × Nat)
  ocrRuns : Nat
  extractRuns : Nat

/-- The empty session state (`begin_text_session`, lines 536-555, with an
arbitrary pre-existing disk cache `disk`). -/
def SpState.fresh (disk : List ((Nat × String) × OcrEntry)) : SpState :=
  ⟨[], [], [], [], [], [], disk, [], [], [], 0, 0⟩

/-- Python truthiness of an optional string (`if sig_val:`). -/
def sigTruthy : Option String → Bool
  | some s => !s.isEmpty
  | none => false

/-- Python `str.strip()`. -/
def pyStrip (s : String) : String := ⟨pyStripL s.data⟩

/-! ## OCR cache layer -/

/-- `scope = region or "full"` (line 788). -/
def normScope (region : String) : String := if region = "" then "full" else region

/-- The raw-text cache entry of a page (`_TEXT_CACHE_RAW.get(i, "")`). -/
def rawAt (st : SpState) (i : Nat) : String := mgetD st.rawCache i ""

/-- `_update_page_cache` (Splitter.py lines 757-776): merge freshly OCR'd
raw text into the page's raw/clean caches without duplicating identical
content or discarding unique content. -/
def _update_page_cache (st : SpState) (page_idx : Nat) (raw : String) : SpState :=
  let existing_raw := mgetD st.rawCache page_idx ""
  let combined :=
    if raw.isEmpty then existing_raw
    else
      let raw_clean := _clean_text raw
      let existing_clean := if existing_raw.isEmpty then "" else _clean_text existing_raw
      if existing_raw.isEmpty then raw
      else if raw_clean = existing_clean ∨ pyStrip raw = pyStrip existing_raw then existing_raw
      else if ¬(pyStrip existing_raw).isEmpty ∧ occursIn (pyStrip existing_raw) raw then raw
      else if ¬(pyStrip raw).isEmpty ∧ occursIn (pyStrip raw) existing_raw then existing_raw
      else existing_raw ++ "\n" ++ raw
  { st with
    rawCache := mset st.rawCache page_idx combined,
    cleanCache := mset st.cleanCache page_idx (_clean_text combined) }

/-- `_ADAPTIVE_DPI_STEPS` (line 118). -/
def _ADAPTIVE_DPI_STEPS : List Nat := [200, 260, 320, 360]

/-- `_select_initial_dpi` (lines 724-736). -/
def _select_initial_dpi (env : Env) (page_idx : Nat) (scope : String)
    (requested : Option Nat) : Nat :=
  let base := 200
  let base := match requested with
    | some r => max base r
    | none => base
  let base := if env.tableLike page_idx then max base (if scope = "full" then 320 else 300)
              else base
  max 150 (min 360 base)

/-- `_next_dpi` (lines 738-742). -/
def _next_dpi (current : Nat) : Nat :=
  (_ADAPTIVE_DPI_STEPS.find? (fun step => current < step)).getD current

/-- `_scope_quality_threshold` (lines 744-745). -/
def _scope_quality_threshold (scope : String) : Nat :=
  if scope = "full" then 80 else 35

/-- `_needs_escalation` (lines 747-755). -/
def _needs_escalation (scope : String) (text_length : Nat) (conf : Option ℚ)
    (dpi : Nat) : Bool :=
  if 360 ≤ dpi then false
  else if (match conf with | some c => decide (c < 85) | none => false) then true
  else if text_length < _scope_quality_threshold scope then true
  else false

/-- `_load_disk_cache` (lines 188-207); entries are stored structured, so
the JSON-default normalisation is already applied. -/
def _load_disk_cache (st : SpState) (page_idx : Nat) (scope : String) : Option OcrEntry :=
  mfind st.diskCache (page_idx, scope)

/-- `_save_disk_cache` (lines 210-236): the payload rewrites `scope`. -/
def _save_disk_cache (st : SpState) (page_idx : Nat) (scope : String)
    (entry : OcrEntry) : SpState :=
  let payloadScope := if scope ≠ "" then scope else if entry.scope ≠ "" then entry.scope else "full"
  { st with diskCache := mset st.diskCache (page_idx, scope) { entry with scope := payloadScope } }

/-- `_apply_cached_result` (lines 239-260). -/
def _apply_cached_result (st : SpState) (page_idx : Nat) (scope' : String)
    (entry : OcrEntry) : SpState :=
  let scope := if scope' = "" then "full" else scope'
  let key := (page_idx, scope)
  let st := { st with ocrCache := mset st.ocrCache key entry }
  let st := { st with rawCache := mset st.rawCache page_idx entry.raw }
  let st := { st with cleanCache := mset st.cleanCache page_idx entry.clean }
  let st := if entry.dpi ≠ 0 then { st with pageDpi := mset st.pageDpi key entry.dpi } else st
  let st := match entry.conf with
    | some c => { st with pageConf := mset st.pageConf key c }
    | none => st
  match entry.image_sig with
  | some s => if !s.isEmpty then { st with pageSig := mset st.pageSig key s } else st
  | none => st

/-- Result of one iteration of the adaptive-DPI `while` loop. -/
structure OcrIterOut where
  st : SpState
  sig : Option String
  lm : Nat
  conf : Option ℚ

/-- One iteration of the `while True` body of `_ocr_page_region_into_cache`
(lines 820-918): run OCR once (exceptions become `raw = ""`,
`avg_conf = None`), merge into the page caches, record DPI/confidence, and
write the OCR result entry. -/
def ocrIter (env : Env) (i : Nat) (scope : String) (pct : ℚ) (st : SpState)
    (current_dpi : Nat) (image_sig : Option String) : OcrIterOut :=
  let attempt := env.ocrRun i scope pct current_dpi
  let image_sig := if scope = "full" ∧ attempt.sigReached then attempt.sig else image_sig
  let rc := match attempt.res with
    | some rc => rc
    | none => ("", none)
  let raw := rc.1
  let conf := rc.2
  let st := { st with ocrRuns := st.ocrRuns + 1 }
  let st := _update_page_cache st i raw
  let cleaned := _clean_text raw
  let combined_clean := mgetD st.cleanCache i cleaned
  let length_metric := if scope = "full" then combined_clean.length else cleaned.length
  let st := { st with pageDpi := mset st.pageDpi (i, scope) current_dpi }
  let st := match conf with
    | some c => { st with pageConf := mset st.pageConf (i, scope) c }
    | none => st
  let final_raw := mgetD st.rawCache i raw
  let final_clean := mgetD st.cleanCache i combined_clean
  let entry : OcrEntry :=
    { raw := final_raw, clean := final_clean, dpi := current_dpi, conf := conf,
      length := length_metric, scope := scope, image_sig := image_sig }
  let st := { st with ocrCache := mset st.ocrCache (i, scope) entry }
  ⟨st, image_sig, length_metric, conf⟩

/-- The `while True` adaptive-DPI loop of `_ocr_page_region_into_cache`
(lines 820-931).  `fuel` bounds the iteration count; the call site passes 5,
which the 200→260→320→360 ladder can never exhaust. -/
def ocrLoop (env : Env) (i : Nat) (scope : String) (pct : ℚ) :
    Nat → SpState → Nat → Option String → SpState × Option String
  | 0, st, _, image_sig => (st, image_sig)
  | fuel + 1, st, current_dpi, image_sig =>
    let out := ocrIter env i scope pct st current_dpi image_sig
    if !(_needs_escalation scope out.lm out.conf current_dpi) then (out.st, out.sig)
    else
      let next := _next_dpi current_dpi
      if next ≤ current_dpi then (out.st, out.sig)
      else ocrLoop env i scope pct fuel out.st next out.sig

/-- The upgrade decision of `_ocr_page_region_into_cache` (lines 798-807):
re-run OCR when the cached DPI is below a freshly requested target, the text
length is below the quality floor, or confidence is below 85 with DPI below
the ladder ceiling. -/
def ocrEntryNeedsUpgrade (ce : OcrEntry) (dpi : Option Nat) (target_dpi : Nat)
    (scope : String) : Bool :=
  (dpi.isSome && decide (ce.dpi < target_dpi)) ||
  decide (ce.length < _scope_quality_threshold scope) ||
  ((match ce.conf with | some c => decide (c < 85) | none => false) && decide (ce.dpi < 360))

/-- Reuse of a cached entry without re-running OCR (lines 808-814). -/
def ocrReuseCached (st : SpState) (i : Nat) (scope : String) (ce : OcrEntry) : SpState :=
  let key := (i, scope)
  let st := { st with rawCache := mset st.rawCache i ce.raw }
  let st := { st with cleanCache := mset st.cleanCache i ce.clean }
  let st := { st with pageDpi := mset st.pageDpi key ce.dpi }
  match ce.conf with
  | some c => { st with pageConf := mset st.pageConf key c }
  | none => st

/-- The OCR-running tail of `_ocr_page_region_into_cache` (lines 816-936):
clamp the region fraction, pick the working DPI, run the adaptive loop, patch
a late image signature into the final entry and persist it to disk. -/
def ocrRunFull (env : Env) (st : SpState) (i : Nat) (scope : String) (pct : ℚ)
    (target_dpi : Nat) : SpState :=
  let key := (i, scope)
  let pct := max (5 / 100 : ℚ) (min (95 / 100 : ℚ) pct)
  let current_dpi := max target_dpi (mgetD st.pageDpi key target_dpi)
  let out := ocrLoop env i scope pct 5 st current_dpi none
  let st := out.1
  let image_sig := out.2
  match mfind st.ocrCache key with
  | some final_entry =>
    let final_entry :=
      if scope = "full" ∧ sigTruthy image_sig ∧ ¬sigTruthy final_entry.image_sig
      then { final_entry with image_sig := image_sig }
      else final_entry
    let st := { st with ocrCache := mset st.ocrCache key final_entry }
    _save_disk_cache st i scope final_entry
  | none => st

/-- `_ocr_page_region_into_cache` (lines 778-936). -/
def _ocr_page_region_into_cache (env : Env) (st : SpState) (i : Nat)
    (region : String) (pct : ℚ) (dpi : Option Nat) : SpState :=
  let scope := normScope region
  let key := (i, scope)
  let ceSt : Option OcrEntry × SpState :=
    match mfind st.ocrCache key with
    | some e => (some e, st)
    | none =>
      match _load_disk_cache st i scope with
      | some d => (some d, _apply_cached_result st i scope d)
      | none => (none, st)
  let target_dpi := _select_initial_dpi env i scope dpi
  match ceSt.1 with
  | some ce =>
    if ocrEntryNeedsUpgrade ce dpi target_dpi scope then
      ocrRunFull env ceSt.2 i scope pct (max target_dpi ce.dpi)
    else ocrReuseCached ceSt.2 i scope ce
  | none => ocrRunFull env ceSt.2 i scope pct target_dpi

/-! ## Text extraction layer -/

/-- `"\n".join(t for t in parts if t)`. -/
def joinNL (parts : List String) : String :=
  String.intercalate "\n" (parts.filter (fun p => !p.isEmpty))

/-- `page_text` (Splitter.py lines 938-971). -/
def page_text (env : Env) (st : SpState) (page_index : Nat) : String × SpState :=
  match mfind st.rawCache page_index with
  | some t => (t, st)
  | none =>
    let raw_text := env.nativeText page_index
    let blocks_text := env.blocksText page_index
    let words_text := env.wordsText page_index
    let merged := joinNL [raw_text, blocks_text, words_text]
    let st := { st with extractRuns := st.extractRuns + 1 }
    let mergedSt :=
      if (merged.isEmpty ∨ (_clean_text merged).length < 100) ∧ env.allowOcr then
        let st := _ocr_page_region_into_cache env st page_index "full" (9 / 10) none
        (mgetD st.rawCache page_index merged, st)
      else (merged, st)
    let merged := mergedSt.1
    let st := mergedSt.2
    let st := { st with rawCache := mset st.rawCache page_index merged }
    (merged, st)

/-- `_page_cleaned` (lines 973-979). -/
def _page_cleaned (env : Env) (st : SpState) (idx : Nat) : String × SpState :=
  match mfind st.cleanCache idx with
  | some c => (c, st)
  | none =>
    let rawSt := page_text env st idx
    let cleaned := _clean_text rawSt.1
    (cleaned, { rawSt.2 with cleanCache := mset rawSt.2.cleanCache idx cleaned })

/-- After any `page_text` call, the returned text sits in the raw cache. -/
theorem page_text_caches_result (env : Env) (st : SpState) (i : Nat) :
    mfind (page_text env st i).2.rawCache i = some (page_text env st i).1 := by
  unfold page_text
  cases hc : mfind st.rawCache i with
  | some t => simp [hc]
  | none => simp [hc, mfind_mset_self]

/-- **C6**: within one text session, a second `page_text` call for the same
page returns the identical text, leaves the state untouched, and performs no
additional OCR or extraction work (the work counters do not move). -/
theorem C6_page_text_idempotent (env : Env) (st : SpState) (i : Nat) :
    (page_text env (page_text env st i).2 i).1 = (page_text env st i).1 ∧
    (page_text env (page_text env st i).2 i).2 = (page_text env st i).2 ∧
    (page_text env (page_text env st i).2 i).2.ocrRuns = (page_text env st i).2.ocrRuns ∧
    (page_text env (page_text env st i).2 i).2.extractRuns
      = (page_text env st i).2.extractRuns := by
  have hkey := page_text_caches_result env st i
  have key : page_text env (page_text env st i).2 i = page_text env st i := by
    generalize hp : page_text env st i = p at *
    rw [page_text, hkey]
  exact ⟨by rw [key], by rw [key], by rw [key], by rw [key]⟩

/-! ### Error handling and DPI-upgrade facts about the OCR engine -/

theorem update_page_cache_raw_empty (st : SpState) (i : Nat) :
    rawAt (_update_page_cache st i "") i = rawAt st i := by
  unfold _update_page_cache rawAt mgetD
  simp [mfind_mset_self, show ("" : String).isEmpty = true from rfl]

/-- A raising OCR attempt leaves the page's raw-text cache entry unchanged. -/
theorem ocrIter_fail_raw (env : Env) (i : Nat) (scope : String) (pct : ℚ)
    (st : SpState) (cdpi : Nat) (sig : Option String)
    (hf : (env.ocrRun i scope pct cdpi).res = none) :
    rawAt (ocrIter env i scope pct st cdpi sig).st i = rawAt st i := by
  simp only [ocrIter, hf]
  exact update_page_cache_raw_empty { st with ocrRuns := st.ocrRuns + 1 } i

/-- Each iteration records an OCR result entry at the loop's current DPI. -/
theorem ocrIter_writes_entry (env : Env) (i : Nat) (scope : String) (pct : ℚ)
    (st : SpState) (cdpi : Nat) (sig : Option String) :
    ∃ e, mfind (ocrIter env i scope pct st cdpi sig).st.ocrCache (i, scope) = some e ∧
      e.dpi = cdpi := by
  unfold ocrIter
  exact ⟨_, mfind_mset_self _ _ _, rfl⟩

/-- If every OCR attempt for this page raises, the adaptive-DPI loop leaves
the page's raw-text cache entry exactly as it was. -/
theorem ocrLoop_fail_raw (env : Env) (i : Nat) (scope : String) (pct : ℚ)
    (hfail : ∀ d, (env.ocrRun i scope pct d).res = none) :
    ∀ fuel st cdpi sig, rawAt (ocrLoop env i scope pct fuel st cdpi sig).1 i = rawAt st i := by
  intro fuel
  induction fuel with
  | zero => intro st cdpi sig; rfl
  | succ n ih =>
    intro st cdpi sig
    simp only [ocrLoop]
    have h1 := ocrIter_fail_raw env i scope pct st cdpi sig (hfail cdpi)
    split
    · exact h1
    · split
      · exact h1
      · rw [ih]
        exact h1

/-- Every entered adaptive-DPI loop writes an OCR cache entry whose recorded
DPI is at least the entry DPI. -/
theorem ocrLoop_writes_dpi (env : Env) (i : Nat) (scope : String) (pct : ℚ) :
    ∀ fuel st cdpi sig, 1 ≤ fuel →
      ∃ e, mfind (ocrLoop env i scope pct fuel st cdpi sig).1.ocrCache (i, scope) = some e ∧
        cdpi ≤ e.dpi := by
  intro fuel
  induction fuel with
  | zero => intro st cdpi sig h; omega
  | succ n ih =>
    intro st cdpi sig _
    simp only [ocrLoop]
    obtain ⟨e0, he0, hd0⟩ := ocrIter_writes_entry env i scope pct st cdpi sig
    split
    · exact ⟨e0, he0, by omega⟩
    · split
      · exact ⟨e0, he0, by omega⟩
      · rename_i hneed hnext
        cases n with
        | zero => exact ⟨e0, by simpa [ocrLoop] using he0, by omega⟩
        | succ m =>
          obtain ⟨e, he, hd⟩ := ih _ (_next_dpi cdpi) (ocrIter env i scope pct st cdpi sig).sig
            (by omega)
          exact ⟨e, he, le_trans (by omega) hd⟩

/-- A totally failing OCR engine leaves the page's raw-text cache entry
unchanged through the whole OCR-running tail. -/
theorem ocrRunFull_fail_raw (env : Env) (st : SpState) (i : Nat) (scope : String)
    (pct : ℚ) (t : Nat) (hfail : ∀ p d, (env.ocrRun i scope p d).res = none) :
    rawAt (ocrRunFull env st i scope pct t) i = rawAt st i := by
  have hloop := ocrLoop_fail_raw env i scope
    (max (5 / 100 : ℚ) (min (95 / 100 : ℚ) pct)) (fun d => hfail _ d) 5 st
    (max t (mgetD st.pageDpi (i, scope) t)) none
  simp only [ocrRunFull]
  split
  · exact hloop
  · exact hloop

/-- The OCR-running tail always leaves an entry with DPI at least the
requested target. -/
theorem ocrRunFull_writes_dpi (env : Env) (st : SpState) (i : Nat) (scope : String)
    (pct : ℚ) (t : Nat) :
    ∃ e, mfind (ocrRunFull env st i scope pct t).ocrCache (i, scope) = some e ∧
      t ≤ e.dpi := by
  obtain ⟨e, he, hd⟩ := ocrLoop_writes_dpi env i scope
    (max (5 / 100 : ℚ) (min (95 / 100 : ℚ) pct)) 5 st
    (max t (mgetD st.pageDpi (i, scope) t)) none (by omega)
  simp only [ocrRunFull, he]
  split
  · refine ⟨_, mfind_mset_self _ _ _, ?_⟩
    simp only []
    omega
  · refine ⟨_, mfind_mset_self _ _ _, ?_⟩
    omega

/-- **C9**: when the OCR step raises for every attempt on a page (and the
page has no previously cached OCR entry to re-apply), the exception does not
propagate — the function is total and returns a state — and the page's
raw-text cache entry after the call is exactly what was cached before the
failed attempt. -/
theorem C9_ocr_exception_preserves_raw (env : Env) (st : SpState) (i : Nat)
    (region : String) (pct : ℚ) (dpi : Option Nat)
    (hfail : ∀ p d, (env.ocrRun i (normScope region) p d).res = none)
    (hmem : mfind st.ocrCache (i, normScope region) = none)
    (hdisk : mfind st.diskCache (i, normScope region) = none) :
    rawAt (_ocr_page_region_into_cache env st i region pct dpi) i = rawAt st i := by
  unfold _ocr_page_region_into_cache
  simp only [hmem, _load_disk_cache, hdisk]
  exact ocrRunFull_fail_raw env st i (normScope region) pct _ hfail

/-- A concrete environment whose OCR always raises. -/
def failEnv : Env :=
  { nPages := 1, allowOcr := true, msearch := fun _ _ => none,
    nativeText := fun _ => "", blocksText := fun _ => "", wordsText := fun _ => "",
    ocrRun := fun _ _ _ _ => ⟨false, none, none⟩, tableLike := fun _ => false,
    regionClean := fun _ _ _ => "", tmatch := fun _ _ _ => none,
    pageSigOracle := fun _ _ => none }

/-- A small state with seeded raw text on page 0 and empty OCR caches. -/
def seededState : SpState :=
  { SpState.fresh [] with rawCache := [(0, "SEED TEXT")] }

/-- **C9, witness**: the preservation theorem applied at a concrete failing
environment and state. -/
theorem C9_witness :
    rawAt (_ocr_page_region_into_cache failEnv seededState 0 "full" (9 / 10) (some 300)) 0
      = rawAt seededState 0 :=
  C9_ocr_exception_preserves_raw failEnv seededState 0 "full" (9 / 10) (some 300)
    (fun _ _ => rfl) rfl rfl

theorem select_initial_dpi_ge_300 (env : Env) (i : Nat) (scope : String) :
    300 ≤ _select_initial_dpi env i scope (some 300) ∧
      _select_initial_dpi env i scope (some 300) ≤ 360 := by
  have h : _select_initial_dpi env i scope (some 300)
      = max 150 (min 360 (if env.tableLike i = true
          then max (max 200 300) (if scope = "full" then 320 else 300)
          else max 200 300)) := rfl
  rw [h]
  split_ifs <;> constructor <;> omega

/-- **C4, amended**: if the cached OCR entry for `(page, scope)` has DPI 200
and a caller requests DPI 300, the entry cached after
`_ocr_page_region_into_cache` returns has DPI ≥ 300, for every scope.
(The companion counterexample shows the text-length half of the original
claim fails.) -/
theorem C4_dpi_upgraded (env : Env) (st : SpState) (i : Nat) (region : String)
    (pct : ℚ) (ce : OcrEntry)
    (hmem : mfind st.ocrCache (i, normScope region) = some ce)
    (hdpi : ce.dpi = 200) :
    ∃ e, mfind (_ocr_page_region_into_cache env st i region pct (some 300)).ocrCache
        (i, normScope region) = some e ∧ 300 ≤ e.dpi := by
  unfold _ocr_page_region_into_cache
  simp only [hmem]
  have htgt := select_initial_dpi_ge_300 env i (normScope region)
  have hup : ocrEntryNeedsUpgrade ce (some 300)
      (_select_initial_dpi env i (normScope region) (some 300)) (normScope region) = true := by
    have h2 : ce.dpi < _select_initial_dpi env i (normScope region) (some 300) := by omega
    simp [ocrEntryNeedsUpgrade, h2]
  rw [hup]
  simp only [if_true]
  obtain ⟨e, he, hd⟩ := ocrRunFull_writes_dpi env st i (normScope region) pct
    (max (_select_initial_dpi env i (normScope region) (some 300)) ce.dpi)
  exact ⟨e, he, by omega⟩

/-- An OCR engine whose every attempt succeeds but returns only 36
characters of text. -/
def shrinkEnv : Env :=
  { failEnv with
    ocrRun := fun _ _ _ _ => ⟨false, none, some (String.mk (List.replicate 36 'A'), none)⟩ }

/-- A cached DPI-200 `bottom_strip` entry of text length 40 (as a previous
200-DPI OCR run would have produced). -/
def entry200 : OcrEntry :=
  { raw := String.mk (List.replicate 40 'B'), clean := String.mk (List.replicate 40 'B'),
    dpi := 200, conf := none, length := 40, scope := "bottom_strip", image_sig := none }

/-- A session state holding only that cached entry. -/
def shrinkState : SpState :=
  { SpState.fresh [] with ocrCache := [((0, "bottom_strip"), entry200)] }

/-- **C4, counterexample**: the cached `bottom_strip` entry has DPI 200 and
text length 40; after requesting DPI 300 the re-run stores DPI 300 but text
length 36 — the length half of the claim (`length ≥ old length`, claimed for
every scope) is false, because for strip scopes the recorded length is that
of the latest OCR output alone. -/
theorem C4_length_counterexample :
    (mfind shrinkState.ocrCache (0, "bottom_strip")).map
        (fun e => (e.dpi, e.length)) = some (200, 40) ∧
    (mfind (_ocr_page_region_into_cache shrinkEnv shrinkState 0 "bottom_strip"
        (7 / 20) (some 300)).ocrCache (0, "bottom_strip")).map
        (fun e => (e.dpi, e.length)) = some (300, 36) := by
  constructor
  · rfl
  · rfl

/-- **C4, witness**: the amended DPI-monotonicity theorem applied at the
same concrete input. -/
theorem C4_dpi_upgraded_witness :
    ∃ e, mfind (_ocr_page_region_into_cache shrinkEnv shrinkState 0 "bottom_strip"
        (7 / 20) (some 300)).ocrCache (0, normScope "bottom_strip") = some e ∧ 300 ≤ e.dpi :=
  C4_dpi_upgraded shrinkEnv shrinkState 0 "bottom_strip" (7 / 20) entry200 rfl rfl

/-! ## Rules

A `Rule` mirrors the compiled rule dicts produced by `load_rules`
(Splitter.py lines 1135-1166).  Absent JSON keys are represented by `none` /
the Python default the code reads with `.get`; `rule.get("start", {})` and
`rule.get("end", {})` behave exactly like a record of defaults, so `start`
and `rend` are plain records ("end" is a Lean keyword).  `hints` is the
`_region_hints` table attached by `_attach_region_hints`: bands per
(target, pattern), empty list when no hint applies. -/

structure RuleStart where
  any_cues : Option (List Pat) := none
  next_page_hits : Option (List Pat) := none
  min_hits_next : Int := 1
  fallback_cues : Option (List Pat) := none
  fallback_to_previous : Bool := false
  lookback_header : Bool := false
  lookback_prev_forbid : Option (List Pat) := none

structure RuleEnd where
  mode : Option String := none
  first_cue : Option (List Pat) := none
  stop_before_new_start : Bool := false
  near_bottom_frac : Option ℚ := none
  max_pages : Option Int := none
  fallback_to_end : Bool := true

structure RuleOutput where
  filename : String := "YY Document"
  prompt : Bool := false
  preview_index : Option Int := none
  preview_offset : Int := 0

structure Rule where
  name : String := ""
  scope : String := ""
  require_any : Option (List Pat) := none
  forbid_any : Option (List Pat) := none
  helpful_cues : Option (List Pat) := none
  min_helpful : Int := 0
  start : RuleStart := {}
  rend : RuleEnd := {}
  output : RuleOutput := {}
  hints : String → Pat → List (ℚ × ℚ) := fun _ _ => []

/-- `pattern.search(text)` as a hit test. -/
def psearch (env : Env) (p : Pat) (t : String) : Bool := (env.msearch p t).isSome

/-- `_hits` (Splitter.py lines 1168-1169). -/
def _hits (env : Env) (text : String) (patterns : List Pat) : Nat :=
  (patterns.filter (fun p => psearch env p text)).length

/-- `_pattern_hits` (lines 1078-1104) without its result memoisation
(`_PATTERN_HIT_CACHE` is invalidated on every text change, so the memo is
semantically transparent): each pattern scores a hit if one of its hinted
region bands matches, or — band or no band — the whole-page clean text
matches. -/
def _pattern_hits (env : Env) (rule : Rule) (target : String) (patterns : List Pat)
    (page_idx : Nat) (cleaned_texts : List String) : Nat :=
  if patterns.isEmpty then 0
  else
    let cleaned_text := cleaned_texts.getD page_idx ""
    (patterns.map (fun pat =>
      let bands := rule.hints target pat
      let bandHit := bands.any (fun b =>
        let rt := env.regionClean page_idx b.1 b.2
        !rt.isEmpty && psearch env pat rt)
      if bandHit then 1 else if psearch env pat cleaned_text then 1 else 0)).sum

/-- `_pattern_first_match` (lines 1107-1132), memoisation dropped likewise. -/
def _pattern_first_match (env : Env) (rule : Rule) (target : String)
    (patterns : List Pat) (page_idx : Nat) (cleaned_texts : List String) : Option Pat :=
  if patterns.isEmpty then none
  else
    let cleaned_text := cleaned_texts.getD page_idx ""
    patterns.findSome? (fun pat =>
      let bands := rule.hints target pat
      if bands.any (fun b =>
          let rt := env.regionClean page_idx b.1 b.2
          !rt.isEmpty && psearch env pat rt) then some pat
      else if psearch env pat cleaned_text then some pat
      else none)

/-- `_first_match_pos` (lines 1528-1536). -/
def _first_match_pos (env : Env) (text : String) (patterns : List Pat) : Option Nat :=
  patterns.foldl (fun pos p =>
    match env.msearch p text with
    | some s =>
      match pos with
      | none => some s
      | some q => if s < q then some s else some q
    | none => pos) none

/-- `FORCE_OCR_RULES` (lines 1180-1185). -/
def FORCE_OCR_RULES : List String :=
  ["SSA IL", "SSA WI", "Named Driver Exclusion", "Named Driver Exclusion WS"]

/-- `FORCE_OCR_RANGE_RULES` (lines 1341-1343). -/
def FORCE_OCR_RANGE_RULES : List String := ["Non-Listed Driver Limitation"]

/-- `_PREBATCH_RULES` (lines 123-127): rule name ↦ (span, lookback). -/
def _PREBATCH_RULES : List (String × Nat × Nat) :=
  [("Dealer Application", 8, 0), ("Non-Listed Driver Limitation", 4, 1),
   ("Named Driver Exclusion", 2, 0)]

/-- `_FORCE_OCR_TEXT_THRESHOLD` (line 119). -/
def _FORCE_OCR_TEXT_THRESHOLD : Nat := 80

/-- `_maybe_save_template` (lines 2643-2659): the template-store write is
exception-swallowed disk I/O; its observable effect here is the event log. -/
def _maybe_save_template (st : SpState) (rule_name : String) (page_idx : Nat) : SpState :=
  if rule_name.isEmpty then st
  else
    let clean := mgetD st.cleanCache page_idx ""
    if clean.isEmpty then st
    else { st with tmplEvents := (rule_name, page_idx) :: st.tmplEvents }

/-- `_page_signature` (lines 515-533). -/
def _page_signature (env : Env) (st : SpState) (page_idx : Nat) (scope : String) :
    Option String × SpState :=
  let key := (page_idx, scope)
  let existing := mfind st.pageSig key
  if (match existing with | some s => !s.isEmpty | none => false) then (existing, st)
  else
    match env.pageSigOracle page_idx scope with
    | some sig => (some sig, { st with pageSig := mset st.pageSig key sig })
    | none => (none, st)

/-- `_TEXT_CACHE_CLEAN.get(i) or _TEXT_CACHE_RAW.get(i) or ""` (line 1213). -/
def seedFallback (st : SpState) (i : Nat) : String :=
  let c := mgetD st.cleanCache i ""
  if !c.isEmpty then c else mgetD st.rawCache i ""

/-- `_force_full_page_ocr` (lines 1188-1239). -/
def _force_full_page_ocr (env : Env) (st : SpState) (page_idx : Nat) (force : Bool)
    (rule_name : Option String) (seed_text : Option String) : SpState :=
  let key := (page_idx, "full")
  if !force && st.forcedOcr.contains key then
    -- lines 1191-1201: re-apply the cached forced result
    match mfind st.ocrCache key with
    | some cached =>
      let st := _apply_cached_result st page_idx "full" cached
      match rule_name with
      | some rn =>
        let clean_text := if !cached.clean.isEmpty then cached.clean
                          else mgetD st.cleanCache page_idx ""
        if !clean_text.isEmpty then { st with tmplEvents := (rn, page_idx) :: st.tmplEvents }
        else st
      | none => st
    | none => st
  else
    -- lines 1202-1209: disk restore
    let diskHit : Option SpState :=
      if (mfind st.ocrCache key).isNone then
        match _load_disk_cache st page_idx "full" with
        | some d =>
          if !force then
            let st := _apply_cached_result st page_idx "full" d
            some { st with forcedOcr := key :: st.forcedOcr }
          else none
        | none => none
      else none
    match diskHit with
    | some stDone => stDone
    | none =>
      -- lines 1210-1225: template-cache short-circuit
      let stage : SpState × Option OcrEntry :=
        match rule_name with
        | some rn =>
          if !force then
            let seed := match seed_text with
              | some s => if !s.isEmpty then s else seedFallback st page_idx
              | none => seedFallback st page_idx
            match env.tmatch rn seed none with
            | some te => (st, some te)
            | none =>
              let ss := _page_signature env st page_idx "full"
              match ss.1 with
              | some sg => (ss.2, env.tmatch rn seed (some sg))
              | none => (ss.2, none)
          else (st, none)
        | none => (st, none)
      match stage.2 with
      | some te =>
        let st := _apply_cached_result stage.1 page_idx "full" te
        let st := { st with forcedOcr := key :: st.forcedOcr }
        (match mfind st.ocrCache key with
         | some e => _save_disk_cache st page_idx "full" e
         | none => st)
      | none =>
        let st := stage.1
        -- line 1226: already forced and not forcing again
        if st.forcedOcr.contains key && !force then st
        else
          -- lines 1228-1237: actually OCR
          let st := _ocr_page_region_into_cache env st page_idx "full" (9 / 10) (some 300)
          let st := { st with forcedOcr := key :: st.forcedOcr }
          match rule_name with
          | some rn =>
            let entry := mfind st.ocrCache key
            let clean_text := match entry with
              | some e => e.clean
              | none => mgetD st.cleanCache page_idx ""
            if entry.isSome && !clean_text.isEmpty then
              { st with tmplEvents := (rn, page_idx) :: st.tmplEvents }
            else st
          | none => st

/-- `_maybe_force_full_page_ocr` (lines 1242-1249): returns whether the
forced OCR ran, plus the updated state. -/
def _maybe_force_full_page_ocr (env : Env) (st : SpState) (page_idx : Nat)
    (page_txt : String) (allow_force : Bool) (rule_name : Option String) :
    Bool × SpState :=
  if !allow_force then (false, st)
  else if _FORCE_OCR_TEXT_THRESHOLD ≤ page_txt.length then (false, st)
  else (true, _force_full_page_ocr env st page_idx false rule_name (some page_txt))

/-- One cue stage of `match_single_page_rule` with the forced-OCR retry for
allow-listed rules (the pattern at lines 1284-1289, 1306-1311): recompute
hits after a successful forced OCR refresh of the page text. -/
def singleCueHits (env : Env) (st : SpState) (ts : List String) (page_idx : Nat)
    (rule : Rule) (target : String) (cues : List Pat) : Nat × List String × SpState :=
  let h0 := _pattern_hits env rule target cues page_idx ts
  if h0 = 0 && FORCE_OCR_RULES.contains rule.name then
    let fr := _maybe_force_full_page_ocr env st page_idx (ts.getD page_idx "") true (some rule.name)
    if fr.1 then
      let pc := _page_cleaned env fr.2 page_idx
      let ts' := ts.set page_idx pc.1
      (_pattern_hits env rule target cues page_idx ts', ts', pc.2)
    else (h0, ts, fr.2)
  else (h0, ts, st)

/-- The `helpful_cues` stage of `match_single_page_rule` (lines 1318-1330),
retry keyed on `hits < min_helpful`. -/
def singleHelpfulHits (env : Env) (st : SpState) (ts : List String) (page_idx : Nat)
    (rule : Rule) (cues : List Pat) : Nat × List String × SpState :=
  let h0 := _pattern_hits env rule "helpful_cues" cues page_idx ts
  if decide ((h0 : Int) < rule.min_helpful) && FORCE_OCR_RULES.contains rule.name then
    let fr := _maybe_force_full_page_ocr env st page_idx (ts.getD page_idx "") true (some rule.name)
    if fr.1 then
      let pc := _page_cleaned env fr.2 page_idx
      let ts' := ts.set page_idx pc.1
      (_pattern_hits env rule "helpful_cues" cues page_idx ts', ts', pc.2)
    else (h0, ts, fr.2)
  else (h0, ts, st)

/-- `match_single_page_rule` (lines 1277-1335): short-circuiting
conjunction start-cues → forbid → require → helpful, debug prints dropped.
Returns the verdict together with the (possibly OCR-refreshed) cleaned-text
list and state. -/
def match_single_page_rule (env : Env) (st : SpState) (ts : List String)
    (page_idx : Nat) (rule : Rule) : Bool × List String × SpState :=
  -- start.any_cues stage
  let s1 : Option (List String × SpState) × List String × SpState :=
    match rule.start.any_cues with
    | some cues =>
      let r := singleCueHits env st ts page_idx rule "start.any_cues" cues
      if r.1 = 0 then (none, r.2.1, r.2.2) else (some (r.2.1, r.2.2), r.2.1, r.2.2)
    | none => (some (ts, st), ts, st)
  match s1.1 with
  | none => (false, s1.2.1, s1.2.2)
  | some (ts, st) =>
    -- forbid_any: any hit fails immediately (line 1298)
    let forbidHit : Bool :=
      match rule.forbid_any with
      | some fps => decide (0 < _pattern_hits env rule "forbid_any" fps page_idx ts)
      | none => false
    if forbidHit then (false, ts, st)
    else
      -- require_any stage
      let s2 : Option (List String × SpState) × List String × SpState :=
        match rule.require_any with
        | some reqs =>
          let r := singleCueHits env st ts page_idx rule "require_any" reqs
          if r.1 = 0 then (none, r.2.1, r.2.2) else (some (r.2.1, r.2.2), r.2.1, r.2.2)
        | none => (some (ts, st), ts, st)
      match s2.1 with
      | none => (false, s2.2.1, s2.2.2)
      | some (ts, st) =>
        -- helpful_cues stage
        let s3 : Option (List String × SpState) × List String × SpState :=
          match rule.helpful_cues with
          | some hc =>
            let r := singleHelpfulHits env st ts page_idx rule hc
            if decide ((r.1 : Int) < rule.min_helpful) then (none, r.2.1, r.2.2)
            else (some (r.2.1, r.2.2), r.2.1, r.2.2)
          | none => (some (ts, st), ts, st)
        match s3.1 with
        | none => (false, s3.2.1, s3.2.2)
        | some (ts, st) => (true, ts, _maybe_save_template st rule.name page_idx)

/-! ## Range-rule start detection -/

/-- The forced-OCR refresh of one page used throughout the range-rule paths
(e.g. lines 1369-1373, 1385-1388): only for rules in
`FORCE_OCR_RANGE_RULES`, and only when `_maybe_force_full_page_ocr` actually
ran. -/
def rangeMaybeRefresh (env : Env) (st : SpState) (ts : List String) (page : Nat)
    (rule_name : String) : List String × SpState :=
  if FORCE_OCR_RANGE_RULES.contains rule_name then
    let fr := _maybe_force_full_page_ocr env st page (ts.getD page "") true (some rule_name)
    if fr.1 then
      let pc := _page_cleaned env fr.2 page
      (ts.set page pc.1, pc.2)
    else (ts, fr.2)
  else (ts, st)

/-- A cue stage with the range-rule forced-OCR retry
(lines 1423-1429 and the require-stage variant). -/
def rangeCueHits (env : Env) (st : SpState) (ts : List String) (page_idx : Nat)
    (rule : Rule) (target : String) (cues : List Pat) : Nat × List String × SpState :=
  let h0 := _pattern_hits env rule target cues page_idx ts
  if h0 = 0 && FORCE_OCR_RANGE_RULES.contains rule.name then
    let fr := _maybe_force_full_page_ocr env st page_idx (ts.getD page_idx "") true (some rule.name)
    if fr.1 then
      let pc := _page_cleaned env fr.2 page_idx
      let ts' := ts.set page_idx pc.1
      (_pattern_hits env rule target cues page_idx ts', ts', pc.2)
    else (h0, ts, fr.2)
  else (h0, ts, st)

/-- The lookahead gate of `match_range_start` (lines 1439-1444). -/
def nextPageGate (env : Env) (st : SpState) (ts : List String) (i : Nat) (rule : Rule) :
    Bool × List String × SpState :=
  match rule.start.next_page_hits with
  | some nps =>
    if i + 1 < ts.length then
      let lookahead := _hits env (ts.getD (i + 1) "") nps
      if (lookahead : Int) < rule.start.min_hits_next then (false, ts, st)
      else (true, ts, st)
    else (true, ts, st)
  | none => (true, ts, st)

/-- The tail of `match_range_start` after the require stage: helpful-cues
gate (lines 1400-1420, with the fall-back to the previous page's helpful
hits when the requirement came from the previous page), `start.any_cues`
(lines 1423-1434) and the lookahead gate. -/
def mrsTail (env : Env) (st : SpState) (ts : List String) (i : Nat) (rule : Rule)
    (require_from_prev : Bool) : Bool × List String × SpState :=
  let helpful : Option (List String × SpState) × List String × SpState :=
    match rule.helpful_cues with
    | some hc =>
      let h0 := _pattern_hits env rule "helpful_cues" hc i ts
      if (h0 : Int) < rule.min_helpful then
        let r1 : Nat × List String × SpState :=
          if FORCE_OCR_RANGE_RULES.contains rule.name then
            let fr := _maybe_force_full_page_ocr env st i (ts.getD i "") true (some rule.name)
            if fr.1 then
              let pc := _page_cleaned env fr.2 i
              let ts' := ts.set i pc.1
              (_pattern_hits env rule "helpful_cues" hc i ts', ts', pc.2)
            else (h0, ts, fr.2)
          else (h0, ts, st)
        let r2 : Nat × List String × SpState :=
          if decide ((r1.1 : Int) < rule.min_helpful) && require_from_prev && decide (0 < i) then
            let pr := rangeMaybeRefresh env r1.2.2 r1.2.1 (i - 1) rule.name
            let hp := _pattern_hits env rule "helpful_cues" hc (i - 1) pr.1
            if rule.min_helpful ≤ (hp : Int) then (hp, pr.1, pr.2) else (r1.1, pr.1, pr.2)
          else r1
        if (r2.1 : Int) < rule.min_helpful then (none, r2.2.1, r2.2.2)
        else (some (r2.2.1, r2.2.2), r2.2.1, r2.2.2)
      else (some (ts, st), ts, st)
    | none => (some (ts, st), ts, st)
  match helpful.1 with
  | none => (false, helpful.2.1, helpful.2.2)
  | some (ts, st) =>
    match rule.start.any_cues with
    | some cues =>
      let r := rangeCueHits env st ts i rule "start.any_cues" cues
      if r.1 = 0 then (false, r.2.1, r.2.2)
      else nextPageGate env r.2.2 r.2.1 i rule
    | none => nextPageGate env st ts i rule

/-- `match_range_start` (Splitter.py lines 1346-1448): the start-page gate
for range rules, including the `fallback_to_previous` path that records a
`_RANGE_LOOKBACK_HINTS` entry so the caller backs the start up one page.
The hint map is an association list where popping a key is modelled as
setting it to `False` (nothing distinguishes an absent key from `False`). -/
def match_range_start (env : Env) (st : SpState) (ts : List String) (i : Nat)
    (rule : Rule) : Bool × List String × SpState :=
  let rule_name := rule.name
  let st := { st with lookbackHints := mset st.lookbackHints (rule_name, i) false }
  let forbidHit : Bool :=
    match rule.forbid_any with
    | some fps => decide (0 < _pattern_hits env rule "forbid_any" fps i ts)
    | none => false
  if forbidHit then (false, ts, st)
  else
    match rule.require_any with
    | some reqs =>
      if _pattern_hits env rule "require_any" reqs i ts = 0 then
        let r1 := rangeCueHits env st ts i rule "require_any" reqs
        if r1.1 = 0 then
          let ts := r1.2.1
          let st := r1.2.2
          let fallback_cues := rule.start.fallback_cues
          let fallback_current := match fallback_cues with
            | some fc => _hits env (ts.getD i "") fc
            | none => 0
          if rule.start.fallback_to_previous ∧ fallback_cues.isSome ∧
              0 < fallback_current ∧ 0 < i then
            let pr := rangeMaybeRefresh env st ts (i - 1) rule_name
            if 0 < _pattern_hits env rule "require_any" reqs (i - 1) pr.1 then
              mrsTail env
                { pr.2 with lookbackHints := mset pr.2.lookbackHints (rule_name, i) true }
                pr.1 i rule true
            else (false, pr.1, pr.2)
          else (false, ts, st)
        else mrsTail env r1.2.2 r1.2.1 i rule false
      else mrsTail env st ts i rule false
    | none => mrsTail env st ts i rule false

/-! ## Range-rule end detection -/

/-- `\w` for the cleaned-text alphabet. -/
def wordChar (c : Char) : Bool := c.isAlphanum || c == '_'

/-- Match a sequence of literal words separated by `\s+` starting exactly
here; returns the remainder after the last word. -/
def matchWordsFrom : List Char → List (List Char) → Option (List Char)
  | t, [] => some t
  | t, [w] => if w.isPrefixOf t then some (t.drop w.length) else none
  | t, w :: w2 :: ws =>
    if w.isPrefixOf t then
      let r := t.drop w.length
      let r' := r.dropWhile Char.isWhitespace
      if r'.length < r.length then matchWordsFrom r' (w2 :: ws) else none
    else none

/-- One position of the `\b…\b` phrase regex: boundary before, words with
`\s+` gaps, boundary after. -/
def phraseHitAt (prev : Option Char) (t : List Char) (ws : List (List Char)) : Bool :=
  (match prev with | none => true | some c => !wordChar c) &&
  (match matchWordsFrom t ws with
   | some rest => match rest.head? with | none => true | some c => !wordChar c
   | none => false)

/-- Scan of the phrase regex over a text. -/
def phraseSearchGo (ws : List (List Char)) : Option Char → List Char → Bool
  | prev, [] => phraseHitAt prev [] ws
  | prev, c :: rest => phraseHitAt prev (c :: rest) ws || phraseSearchGo ws (some c) rest

/-- `re.search(r"\bW1\s+W2…\b", text)` for a literal word phrase (the only
regex shapes hard-coded in `signature_end_index`). -/
def rePhrase (phrase : List String) (t : String) : Bool :=
  phraseSearchGo (phrase.map String.data) none t.data

/-- Last index of the scan satisfying `p` (the `last = j` accumulation).  -/
def lastIdxWith (p : Nat → Bool) (idxs : List Nat) : Option Nat :=
  idxs.foldl (fun acc j => if p j then some j else acc) none

/-- `signature_end_index` (Splitter.py lines 1450-1473). -/
def signature_end_index (ts : List String) (start_idx : Nat) : Nat × Bool :=
  let n := ts.length
  let start_page := ts.getD start_idx ""
  if rePhrase ["DOCUMENT", "COMPLETION", "CERTIFICATE"] start_page then
    match lastIdxWith (fun j => rePhrase ["DOCUMENT", "HISTORY"] (ts.getD j ""))
        (List.range' start_idx (n - start_idx)) with
    | some last => (last, true)
    | none => (n - 1, false)
  else if rePhrase ["DEALER", "POLICY", "BIND", "PACKAGE"] start_page then
    match lastIdxWith (fun j =>
        rePhrase ["AGREEMENT", "COMPLETED"] (ts.getD j "") ||
        rePhrase ["ADOBE", "ACROBAT", "SIGN"] (ts.getD j ""))
        (List.range' start_idx (n - start_idx)) with
    | some last => (last, true)
    | none => (n - 1, false)
  else (n - 1, false)

/-- Positions after one-or-two digits (a `\d{1,2}` with both backtracking
options). -/
def afterDigits12 : List Char → List (List Char)
  | c :: rest =>
    if c.isDigit then
      rest :: (match rest with
        | c2 :: rest2 => if c2.isDigit then [rest2] else []
        | [] => [])
    else []
  | [] => []

def afterSlash : List Char → Option (List Char)
  | '/' :: r => some r
  | _ => none

def fourDigits : List Char → Bool
  | a :: b :: c :: d :: _ => a.isDigit && b.isDigit && c.isDigit && d.isDigit
  | _ => false

/-- A `\d{1,2}/\d{1,2}/\d{4}` match starting exactly here. -/
def dateHitAt (t : List Char) : Bool :=
  (afterDigits12 t).any fun r1 =>
    match afterSlash r1 with
    | some r2 =>
      (afterDigits12 r2).any fun r3 =>
        match afterSlash r3 with
        | some r4 => fourDigits r4
        | none => false
    | none => false

/-- `re.search(r'\d{1,2}/\d{1,2}/\d{4}', t)` (which subsumes the second
date regex `\d{1,2}/\d{2}/\d{4}` of line 1661 presence-wise). -/
def hasDateLike (s : String) : Bool := go s.data
where go : List Char → Bool
  | [] => false
  | c :: r => dateHitAt (c :: r) || go r

/-- `'PM' in t or 'AM' in t or 'UTC' in t` (line 1662). -/
def hasTimesLike (s : String) : Bool :=
  occursIn "PM" s || occursIn "AM" s || occursIn "UTC" s

/-- The keyword screen of line 1663. -/
def endKeywords : List String :=
  ["BROKER", "SIGNATURE", "COMPLETION", "INDICATE", "INTERESTS", "APPLICANT", "CONSENT"]

/-- The page loop of `_prebatch_rule_pages` (lines 1262-1274). -/
def prebatchGo (env : Env) (rn : String) :
    List Nat → List String → SpState → List String × SpState
  | [], ts, st => (ts, st)
  | j :: rest, ts, st =>
    let text_len := if j < ts.length then (ts.getD j "").length else 0
    if _FORCE_OCR_TEXT_THRESHOLD ≤ text_len then prebatchGo env rn rest ts st
    else if st.forcedOcr.contains (j, "full") then prebatchGo env rn rest ts st
    else
      let seed := if j < ts.length then ts.getD j "" else ""
      let st := _force_full_page_ocr env st j false (some rn) (some seed)
      if j < ts.length then
        let pc := _page_cleaned env st j
        prebatchGo env rn rest (ts.set j pc.1) pc.2
      else prebatchGo env rn rest ts st

/-- `_prebatch_rule_pages` (Splitter.py lines 1252-1274). -/
def _prebatch_rule_pages (env : Env) (st : SpState) (rule_name : String)
    (ts : List String) (start_idx : Nat) : List String × SpState :=
  match _PREBATCH_RULES.lookup rule_name with
  | none => (ts, st)
  | some (span, lookback) =>
    let start_page := start_idx - lookback
    let end_page := min (start_idx + span) env.nPages
    prebatchGo env rule_name (List.range' start_page (end_page - start_page)) ts st

/-- The forced-OCR step on a suspicious candidate end page, one scan-loop
iteration of `find_range_end` (lines 1640-1686): possibly re-OCRs page `j`
and refreshes its cleaned text. -/
def freOcrStep (env : Env) (rule : Rule) (is_dealer_app : Bool)
    (first_cue : Option (List Pat)) (start_idx j : Nat)
    (ts : List String) (st : SpState) : List String × SpState :=
  let page_txt := ts.getD j ""
  let should_check_ocr : Bool :=
    first_cue.isSome && (is_dealer_app || env.allowOcr) &&
      (is_dealer_app || decide (start_idx + 4 ≤ j))
  if should_check_ocr then
    let needs_ocr : Bool :=
      if page_txt.length < 500 && _hits env page_txt (first_cue.getD []) = 0 then
        true
      else if 200 < page_txt.length && page_txt.length < 2000 &&
          _hits env page_txt (first_cue.getD []) = 0 then
        hasDateLike page_txt && hasTimesLike page_txt &&
          !(endKeywords.any (fun kw => occursIn kw page_txt))
      else false
    if needs_ocr then
      let st' :=
        if is_dealer_app && decide (page_txt.length < 500) then
          if st.forcedOcr.contains (j, "full") then st
          else _force_full_page_ocr env st j false (some rule.name) (some page_txt)
        else _ocr_page_region_into_cache env st j "bottom_strip" (6 / 10) (some 300)
      let pc := _page_cleaned env st' j
      (ts.set j pc.1, pc.2)
    else (ts, st)
  else (ts, st)

/-- The near-bottom position filter for a matched end cue (lines 1691-1699). -/
def nearBottomHit (env : Env) (near_bottom_frac : Option ℚ)
    (page_txt : String) (mp : Pat) : Bool :=
  match near_bottom_frac with
  | some nbf =>
    let frac := max 0 (min (99 / 100 : ℚ) nbf)
    match _first_match_pos env page_txt [mp] with
    | some mpos => decide (((page_txt.length : ℚ) * (1 - frac)).floor ≤ (mpos : Int))
    | none => false
  | none => true

/-- The `for j in range(search_start, scan_limit + 1)` loop of
`find_range_end` (lines 1628-1718), fuel-indexed (the caller passes exactly
the iteration count).  Returns `some (end, hit_ok, pattern)` on an early
return, `none` when the scan ran out. -/
def freLoop (env : Env) (rule : Rule) (is_dealer_app : Bool)
    (first_cue : Option (List Pat)) (stop_b4 : Bool) (other_start_pats : List Pat)
    (near_bottom_frac : Option ℚ) (start_idx scan_limit : Nat) :
    Nat → Nat → List String → SpState →
      Option (Nat × Bool × Option Pat) × List String × SpState
  | 0, _, ts, st => (none, ts, st)
  | fuel + 1, j, ts, st =>
    if scan_limit < j then (none, ts, st)
    -- 1) early boundary: this page looks like a *different* range start
    else if stop_b4 ∧ start_idx < j ∧ other_start_pats ≠ [] ∧
        0 < _hits env (ts.getD j "") other_start_pats then
      (some (j - 1, true, none), ts, st)
    else
      -- 2) forced OCR on suspicious candidate end pages
      let tsSt := freOcrStep env rule is_dealer_app first_cue start_idx j ts st
      let ts := tsSt.1
      let st := tsSt.2
      -- 3) main end cue(s), with the near-bottom filter
      match first_cue with
      | some fc =>
        match _pattern_first_match env rule "end.first_cue" fc j ts with
        | some mp =>
          if nearBottomHit env near_bottom_frac (ts.getD j "") mp then
            (some (j, true, some mp), ts, st)
          else freLoop env rule is_dealer_app first_cue stop_b4 other_start_pats
            near_bottom_frac start_idx scan_limit fuel (j + 1) ts st
        | none => freLoop env rule is_dealer_app first_cue stop_b4 other_start_pats
            near_bottom_frac start_idx scan_limit fuel (j + 1) ts st
      | none => freLoop env rule is_dealer_app first_cue stop_b4 other_start_pats
          near_bottom_frac start_idx scan_limit fuel (j + 1) ts st

/-- The `next_table_page` strategy of `find_range_end` (lines 1575-1587):
the next (or next-but-one) table-like page, else the next page, else the
last page.  Pure document geometry, no state. -/
def nextTablePageEnd (env : Env) (n start_idx : Nat) : Nat × Bool :=
  let j := start_idx + 1
  if j < n ∧ env.tableLike j then (j, true)
  else
    let scan_upto := min (start_idx + 2) (n - 1)
    match (List.range' (j + 1) (scan_upto + 1 - (j + 1))).find? env.tableLike with
    | some k => (k, true)
    | none => if start_idx + 1 < n then (start_idx + 1, true) else (n - 1, false)

/-- The cue-scan loop run plus the fallbacks of `find_range_end`
(lines 1628-1723). -/
def cueScanRun (env : Env) (rule : Rule) (osp : List Pat)
    (start_idx scan_limit : Nat) (ts : List String) (st : SpState) :
    (Nat × Bool × Option Pat) × List String × SpState :=
  let out := freLoop env rule (rule.name = "Dealer Application") rule.rend.first_cue
    rule.rend.stop_before_new_start osp rule.rend.near_bottom_frac
    start_idx scan_limit (scan_limit + 1 - (start_idx + 1)) (start_idx + 1) ts st
  match out.1 with
  | some r => (r, out.2.1, out.2.2)
  | none =>
    if rule.rend.fallback_to_end then ((scan_limit, false, none), out.2.1, out.2.2)
    else ((start_idx, false, none), out.2.1, out.2.2)

/-- The default (cue-scan) strategy of `find_range_end` (lines 1589-1723):
the early window check, rule-page prebatching, template bookkeeping, then
the scan. -/
def cueScanTail (env : Env) (st : SpState) (ts : List String) (start_idx : Nat)
    (rule : Rule) (osp : List Pat) (scan_limit : Nat) :
    (Nat × Bool × Option Pat) × List String × SpState :=
  if scan_limit < start_idx + 1 then
    if rule.rend.fallback_to_end then ((scan_limit, false, none), ts, st)
    else ((start_idx, false, none), ts, st)
  else
    let pb :=
      if (_PREBATCH_RULES.lookup rule.name).isSome then
        _prebatch_rule_pages env st rule.name ts start_idx
      else (ts, st)
    let st := if !rule.name.isEmpty then _maybe_save_template pb.2 rule.name start_idx
              else pb.2
    cueScanRun env rule osp start_idx scan_limit pb.1 st

/-- `find_range_end` (Splitter.py lines 1549-1723).  Returns
`((end_index, hit_ok, matched_pattern), cleaned_texts, state)`. -/
def find_range_end (env : Env) (st : SpState) (ts : List String) (start_idx : Nat)
    (rule : Rule) (all_range_start_pats : List Pat) (self_start_pats : List Pat) :
    (Nat × Bool × Option Pat) × List String × SpState :=
  let n := ts.length
  let e := rule.rend
  if e.mode = some "signature_rules" then
    let r := signature_end_index ts start_idx
    ((r.1, r.2, none), ts, st)
  else if e.mode = some "next_table_page" then
    let r := nextTablePageEnd env n start_idx
    ((r.1, r.2, none), ts, st)
  else
    let scan_limit :=
      match e.max_pages with
      | some mp => if 0 < mp then min (n - 1) (start_idx + (mp.toNat - 1)) else n - 1
      | none => n - 1
    let other_start_pats :=
      if e.stop_before_new_start then
        all_range_start_pats.filter (fun p => !self_start_pats.contains p)
      else []
    cueScanTail env st ts start_idx rule other_start_pats scan_limit

/-! ### C3: range ordering and the max_pages cap -/

theorem lastIdxWith_mem (p : Nat → Bool) (idxs : List Nat) :
    ∀ acc r, idxs.foldl (fun acc j => if p j then some j else acc) acc = some r →
      r ∈ idxs ∨ acc = some r := by
  induction idxs with
  | nil => intro acc r h; exact Or.inr h
  | cons a rest ih =>
    intro acc r h
    simp only [List.foldl_cons] at h
    rcases ih _ r h with hmem | hacc
    · exact Or.inl (List.mem_cons_of_mem a hmem)
    · by_cases hp : p a = true
      · rw [if_pos hp] at hacc
        cases hacc
        exact Or.inl (List.mem_cons_self a rest)
      · rw [if_neg hp] at hacc
        exact Or.inr hacc

theorem signature_end_bounds (ts : List String) (start_idx : Nat)
    (h : start_idx < ts.length) :
    start_idx ≤ (signature_end_index ts start_idx).1 ∧
      (signature_end_index ts start_idx).1 ≤ ts.length - 1 := by
  simp only [signature_end_index]
  have hrange : ∀ (p : Nat → Bool) r,
      lastIdxWith p (List.range' start_idx (ts.length - start_idx)) = some r →
      start_idx ≤ r ∧ r ≤ ts.length - 1 := by
    intro p r hr
    rcases lastIdxWith_mem p _ none r hr with hmem | hacc
    · obtain ⟨i, hi, rfl⟩ := List.mem_range'.mp hmem
      omega
    · simp at hacc
  split
  · split
    · rename_i r hr
      exact hrange _ r hr
    · omega
  · split
    · split
      · rename_i r hr
        exact hrange _ r hr
      · omega
    · omega

/-- The scan loop only ever returns an index in `[start_idx, scan_limit]`. -/
theorem freLoop_bounds (env : Env) (rule : Rule) (ida : Bool)
    (fc : Option (List Pat)) (sb : Bool) (osp : List Pat) (nbf : Option ℚ)
    (start_idx scan_limit : Nat) :
    ∀ fuel j ts st r, start_idx + 1 ≤ j →
      (freLoop env rule ida fc sb osp nbf start_idx scan_limit fuel j ts st).1 = some r →
      start_idx ≤ r.1 ∧ r.1 ≤ scan_limit := by
  intro fuel
  induction fuel with
  | zero =>
    intro j ts st r hj h
    simp [freLoop] at h
  | succ n ih =>
    intro j ts st r hj h
    rw [freLoop] at h
    by_cases h1 : scan_limit < j
    · rw [if_pos h1] at h
      simp at h
    · rw [if_neg h1] at h
      by_cases h2 : sb = true ∧ start_idx < j ∧ osp ≠ [] ∧
          0 < _hits env (ts.getD j "") osp
      · rw [if_pos h2] at h
        simp only [Option.some.injEq] at h
        subst h
        constructor
        · simp
          omega
        · simp
          omega
      · rw [if_neg h2] at h
        split at h
        · rename_i cues
          generalize freOcrStep env rule ida (some cues) start_idx j ts st = q at h
          simp only [] at h
          split at h
          · split at h
            · simp only [Option.some.injEq] at h
              subst h
              constructor
              · simp
                omega
              · simp
                omega
            · exact ih (j + 1) _ _ r (by omega) h
          · exact ih (j + 1) _ _ r (by omega) h
        · exact ih (j + 1) _ _ r (by omega) h

theorem nextTablePageEnd_bounds (env : Env) (n start_idx : Nat) (hn : start_idx < n) :
    start_idx ≤ (nextTablePageEnd env n start_idx).1 ∧
      (nextTablePageEnd env n start_idx).1 ≤ n - 1 := by
  simp only [nextTablePageEnd]
  split
  · rename_i hcond
    refine ⟨?_, ?_⟩
    · show start_idx ≤ start_idx + 1
      omega
    · show start_idx + 1 ≤ n - 1
      omega
  · split
    · rename_i k hk
      have hmem := List.mem_of_find?_eq_some hk
      have hk2 := List.mem_range'.mp hmem
      refine ⟨?_, ?_⟩
      · show start_idx ≤ k
        obtain ⟨i, hi, rfl⟩ := hk2
        omega
      · show k ≤ n - 1
        obtain ⟨i, hi, rfl⟩ := hk2
        omega
    · split
      · refine ⟨?_, ?_⟩
        · show start_idx ≤ start_idx + 1
          omega
        · show start_idx + 1 ≤ n - 1
          omega
      · refine ⟨?_, ?_⟩
        · show start_idx ≤ n - 1
          omega
        · show n - 1 ≤ n - 1
          omega

/-- The cue-scan run (loop plus fallbacks) keeps the end index in
`[start_idx, scan_limit]` whenever the window is sane. -/
theorem cueScanRun_end_bounds (env : Env) (rule : Rule) (osp : List Pat)
    (start_idx scan_limit : Nat) (h : start_idx ≤ scan_limit) (ts : List String)
    (st : SpState) :
    start_idx ≤ (cueScanRun env rule osp start_idx scan_limit ts st).1.1 ∧
      (cueScanRun env rule osp start_idx scan_limit ts st).1.1 ≤ scan_limit := by
  simp only [cueScanRun]
  split
  · rename_i r hr
    exact freLoop_bounds env rule _ _ _ _ _ start_idx scan_limit
      _ _ _ _ r (Nat.le_refl _) hr
  · split
    · exact ⟨h, Nat.le_refl _⟩
    · exact ⟨Nat.le_refl _, h⟩

/-- The whole default strategy (early-window check, prebatch, scan) keeps the
end index in `[start_idx, scan_limit]`. -/
theorem cueScanTail_end_bounds (env : Env) (rule : Rule) (osp : List Pat)
    (st : SpState) (ts : List String) (start_idx scan_limit : Nat)
    (h : start_idx ≤ scan_limit) :
    start_idx ≤ (cueScanTail env st ts start_idx rule osp scan_limit).1.1 ∧
      (cueScanTail env st ts start_idx rule osp scan_limit).1.1 ≤ scan_limit := by
  simp only [cueScanTail]
  by_cases hlt : scan_limit < start_idx + 1
  · rw [if_pos hlt]
    split
    · exact ⟨h, Nat.le_refl _⟩
    · exact ⟨Nat.le_refl _, h⟩
  · rw [if_neg hlt]
    exact cueScanRun_end_bounds env rule osp start_idx scan_limit h _ _

/-- **C3, amended**: the range ordering invariant: `start ≤ end` and
`end ≤ N-1` hold in every end mode; the `max_pages` cap holds in the default
cue-scan mode (the counterexample shows `next_table_page` — and likewise
`signature_rules` — ignores `max_pages`). -/
theorem C3_range_end_bounds (env : Env) (st : SpState) (ts : List String)
    (start_idx : Nat) (rule : Rule) (pats spats : List Pat)
    (hn : start_idx < ts.length) :
    start_idx ≤ (find_range_end env st ts start_idx rule pats spats).1.1 ∧
    (find_range_end env st ts start_idx rule pats spats).1.1 ≤ ts.length - 1 ∧
    (rule.rend.mode = none →
      ∀ mp, rule.rend.max_pages = some mp → 0 < mp →
        (find_range_end env st ts start_idx rule pats spats).1.1
          ≤ min (ts.length - 1) (start_idx + (mp.toNat - 1))) := by
  simp only [find_range_end]
  by_cases hsig : rule.rend.mode = some "signature_rules"
  · rw [if_pos hsig]
    have hb := signature_end_bounds ts start_idx hn
    refine ⟨hb.1, hb.2, ?_⟩
    intro hmode
    rw [hmode] at hsig
    cases hsig
  · rw [if_neg hsig]
    by_cases hntp : rule.rend.mode = some "next_table_page"
    · rw [if_pos hntp]
      have hb := nextTablePageEnd_bounds env ts.length start_idx hn
      refine ⟨hb.1, hb.2, ?_⟩
      intro hmode
      rw [hmode] at hntp
      cases hntp
    · rw [if_neg hntp]
      have hmain : ∀ sl : Nat, start_idx ≤ sl → sl ≤ ts.length - 1 →
          start_idx ≤ (cueScanTail env st ts start_idx rule
              (if rule.rend.stop_before_new_start = true then
                pats.filter (fun p => !spats.contains p) else []) sl).1.1 ∧
          (cueScanTail env st ts start_idx rule
              (if rule.rend.stop_before_new_start = true then
                pats.filter (fun p => !spats.contains p) else []) sl).1.1 ≤ sl := by
        intro sl h1 _
        exact cueScanTail_end_bounds env rule _ st ts start_idx sl h1
      cases hmp : rule.rend.max_pages with
      | none =>
        simp only [hmp]
        have hb := hmain (ts.length - 1) (by omega) (Nat.le_refl _)
        exact ⟨hb.1, hb.2, fun _ _ hmp2 _ => by cases hmp2⟩
      | some mp =>
        simp only [hmp]
        by_cases hpos : 0 < mp
        · rw [if_pos hpos]
          have hb := hmain (min (ts.length - 1) (start_idx + (mp.toNat - 1)))
            (by omega) (by omega)
          exact ⟨hb.1, by have := hb.2; omega, fun _ mp2 hmp2 _ => by
            injection hmp2 with h2
            subst h2
            exact hb.2⟩
        · rw [if_neg hpos]
          have hb := hmain (ts.length - 1) (by omega) (Nat.le_refl _)
          exact ⟨hb.1, hb.2, fun _ mp2 hmp2 hpos2 => by
            injection hmp2 with h2
            subst h2
            exact absurd hpos2 hpos⟩

/-- A range rule in `next_table_page` end mode that also sets `max_pages = 1`. -/
def c3Rule : Rule :=
  { scope := "range", rend := { mode := some "next_table_page", max_pages := some 1 } }

/-- **C3, counterexample**: on a 3-page binder with no table-like pages, a
`next_table_page` end rule with `max_pages = 1` starting at page 0 yields end
page 1, yet the claimed cap is `min(N-1, start + max_pages - 1) = 0`: the
`max_pages` cap is computed (and honoured) only in the default cue-scan mode
(Splitter.py lines 1589-1596); the `signature_rules` and `next_table_page`
branches return before it is ever read. -/
theorem C3_counterexample :
    (find_range_end failEnv (SpState.fresh []) ["a", "b", "c"] 0 c3Rule [] []).1.1 = 1 ∧
      min ((["a", "b", "c"] : List String).length - 1) (0 + ((1 : Int).toNat - 1)) = 0 :=
  ⟨rfl, rfl⟩

/-- **C3, witness**: the bounds theorem applied to a concrete 3-page binder
at start page 0. -/
theorem C3_range_end_bounds_witness :
    0 < (["a", "b", "c"] : List String).length ∧
      (0 ≤ (find_range_end failEnv (SpState.fresh []) ["a", "b", "c"] 0 c3Rule [] []).1.1 ∧
      (find_range_end failEnv (SpState.fresh []) ["a", "b", "c"] 0 c3Rule [] []).1.1
        ≤ (["a", "b", "c"] : List String).length - 1 ∧
      (c3Rule.rend.mode = none →
        ∀ mp, c3Rule.rend.max_pages = some mp → 0 < mp →
          (find_range_end failEnv (SpState.fresh []) ["a", "b", "c"] 0 c3Rule [] []).1.1
            ≤ min ((["a", "b", "c"] : List String).length - 1) (0 + (mp.toNat - 1)))) :=
  ⟨by decide,
    C3_range_end_bounds failEnv (SpState.fresh []) ["a", "b", "c"] 0 c3Rule [] []
      (by decide)⟩

/-! ### C7: the missed-end-cue fallback -/

theorem findSome?_none_of_all {α β : Type} (f : α → Option β) :
    ∀ l : List α, (∀ x ∈ l, f x = none) → l.findSome? f = none := by
  intro l
  induction l with
  | nil => intro _; rfl
  | cons a r ih =>
    intro h
    simp only [List.findSome?]
    rw [h a (List.mem_cons_self a r)]
    exact ih (fun x hx => h x (List.mem_cons_of_mem a hx))

/-- If none of the listed patterns matches any text at all, the first-match
scan over bands and page text comes up empty. -/
theorem pattern_first_match_none (env : Env) (rule : Rule) (target : String)
    (fc : List Pat) (hfc : ∀ p ∈ fc, ∀ t, env.msearch p t = none) (j : Nat)
    (ts : List String) : _pattern_first_match env rule target fc j ts = none := by
  unfold _pattern_first_match
  split
  · rfl
  · refine findSome?_none_of_all _ fc (fun pat hpat => ?_)
    have hps : ∀ t, psearch env pat t = false := fun t => by
      simp [psearch, hfc pat hpat t]
    simp [hps]

/-- With an end cue that matches nothing, the scan loop always runs out. -/
theorem freLoop_none_of_no_cue (env : Env) (rule : Rule) (ida : Bool)
    (fc : List Pat) (hnone : ∀ p ∈ fc, ∀ t, env.msearch p t = none)
    (osp : List Pat) (nbf : Option ℚ) (start_idx scan_limit : Nat) :
    ∀ fuel j ts st, (freLoop env rule ida (some fc) false osp nbf
        start_idx scan_limit fuel j ts st).1 = none := by
  intro fuel
  induction fuel with
  | zero => intro j ts st; rfl
  | succ n ih =>
    intro j ts st
    rw [freLoop]
    by_cases h1 : scan_limit < j
    · rw [if_pos h1]
    · rw [if_neg h1]
      have h2 : ¬((false : Bool) = true ∧ start_idx < j ∧ osp ≠ [] ∧
          0 < _hits env (ts.getD j "") osp) := by
        intro hcon
        exact absurd hcon.1 (by simp)
      rw [if_neg h2]
      simp only []
      rw [pattern_first_match_none env rule "end.first_cue" fc hnone j
        (freOcrStep env rule ida (some fc) start_idx j ts st).1]
      exact ih (j + 1) _ _

/-- With an end cue that never matches, the default end-scan falls back to the
scan limit with `hit_ok = False` (for `fallback_to_end` rules). -/
theorem cueScanTail_no_cue (env : Env) (rule : Rule) (osp : List Pat)
    (fc : List Pat) (hfc : rule.rend.first_cue = some fc)
    (hnone : ∀ p ∈ fc, ∀ t, env.msearch p t = none)
    (hsb : rule.rend.stop_before_new_start = false)
    (hfb : rule.rend.fallback_to_end = true)
    (st : SpState) (ts : List String) (start_idx scan_limit : Nat) :
    (cueScanTail env st ts start_idx rule osp scan_limit).1
      = (scan_limit, false, none) := by
  simp only [cueScanTail]
  by_cases hlt : scan_limit < start_idx + 1
  · rw [if_pos hlt]
    simp [hfb]
  · rw [if_neg hlt]
    simp only [cueScanRun]
    rw [hfc, hsb]
    rw [freLoop_none_of_no_cue env rule _ fc hnone osp rule.rend.near_bottom_frac
      start_idx scan_limit]
    simp [hfb]

/-- `filename - missed end cue` really contains the marker text. -/
theorem tag_missed_contains (f : String) :
    occursIn "missed end cue" (_tag_if_missed f true) = true := by
  show occursInL "missed end cue".data
    ((splitextL f.data).1 ++ (" - missed end cue".data ++ (splitextL f.data).2)) = true
  have h : (" - missed end cue".data : List Char) =
      " - ".data ++ "missed end cue".data := rfl
  rw [h]
  simpa only [List.append_assoc] using
    occursInL_middle "missed end cue".data ((splitextL f.data).1 ++ " - ".data)
      (splitextL f.data).2

/-- **C7, amended**: for a range rule whose `end.first_cue` matches no text at
all, with `max_pages = 3`, default `fallback_to_end` and no
`stop_before_new_start`, on a 5-page binder the scan returns end page
`min(4, start + 2)` — `[start, start+2]` only when `start ≤ 2`, clipped to the
last page otherwise — with `hit_ok = False`, and the output filename tagged
for that result contains `"missed end cue"`. -/
theorem C7_missed_end_cue (env : Env) (st : SpState) (ts : List String)
    (start_idx : Nat) (rule : Rule) (pats spats : List Pat) (fc : List Pat)
    (hlen : ts.length = 5) (hstart : start_idx < 5)
    (hmode : rule.rend.mode = none)
    (hmp : rule.rend.max_pages = some 3)
    (hfb : rule.rend.fallback_to_end = true)
    (hsb : rule.rend.stop_before_new_start = false)
    (hfc : rule.rend.first_cue = some fc)
    (hnone : ∀ p ∈ fc, ∀ t, env.msearch p t = none) :
    (find_range_end env st ts start_idx rule pats spats).1
        = (min 4 (start_idx + 2), false, none) ∧
      ∀ fname, occursIn "missed end cue"
        (_tag_if_missed fname
          (!(find_range_end env st ts start_idx rule pats spats).1.2.1)) = true := by
  have hmain : (find_range_end env st ts start_idx rule pats spats).1
      = (min 4 (start_idx + 2), false, none) := by
    simp only [find_range_end]
    rw [if_neg (by simp [hmode]), if_neg (by simp [hmode])]
    simp only [hmp]
    rw [if_pos (by norm_num : (0 : Int) < 3)]
    refine (cueScanTail_no_cue env rule _ fc hfc hnone hsb hfb st ts start_idx _).trans ?_
    rw [(show min (ts.length - 1) (start_idx + ((3 : Int).toNat - 1))
      = min 4 (start_idx + 2) by omega)]
  refine ⟨hmain, fun fname => ?_⟩
  rw [hmain]
  exact tag_missed_contains fname

/-- A range rule with a never-matching end cue (pattern 5), `max_pages = 3`
and the default fallbacks. -/
def c7Rule : Rule :=
  { scope := "range", rend := { first_cue := some [5], max_pages := some 3 } }

/-- **C7, counterexample**: on the 5-page binder with start page 3, the missed
end cue makes the range end at the clipped scan limit `min(4, 3+2) = 4`, not
at `start + 2 = 5`: the claimed range `[start, start+2]` is wrong whenever
`start + 2` overshoots the last page. -/
theorem C7_counterexample :
    (find_range_end failEnv (SpState.fresh []) ["a", "b", "c", "d", "e"] 3 c7Rule [] []).1
        = (4, false, none) ∧ (4 : Nat) ≠ 3 + 2 :=
  ⟨rfl, by decide⟩

/-- **C7, witness**: the amended theorem applied on the concrete 5-page binder
at start page 1 (where the claimed `[start, start+2]` shape does hold). -/
theorem C7_missed_end_cue_witness :
    ((["a", "b", "c", "d", "e"] : List String).length = 5 ∧ 1 < 5) ∧
      ((find_range_end failEnv (SpState.fresh []) ["a", "b", "c", "d", "e"] 1 c7Rule [] []).1
          = (min 4 (1 + 2), false, none) ∧
        ∀ fname, occursIn "missed end cue"
          (_tag_if_missed fname
            (!(find_range_end failEnv (SpState.fresh [])
                ["a", "b", "c", "d", "e"] 1 c7Rule [] []).1.2.1)) = true) :=
  ⟨⟨by decide, by decide⟩,
    C7_missed_end_cue failEnv (SpState.fresh []) ["a", "b", "c", "d", "e"] 1 c7Rule [] [] [5]
      (by decide) (by decide) rfl rfl rfl rfl rfl (fun p _ t => rfl)⟩

/-! ### C8: forbid versus require -/

/-- A whole-page hit of any listed pattern makes `_pattern_hits` positive,
region hints notwithstanding (the hint bands only add hits, they never mask
the whole-page fallback test). -/
theorem pattern_hits_pos_of_whole (env : Env) (rule : Rule) (target : String)
    (fps : List Pat) (page_idx : Nat) (ts : List String) (p : Pat) (hp : p ∈ fps)
    (hhit : psearch env p (ts.getD page_idx "") = true) :
    0 < _pattern_hits env rule target fps page_idx ts := by
  unfold _pattern_hits
  have hne : fps.isEmpty = false := by
    cases fps with
    | nil => simp at hp
    | cons a b => rfl
  rw [if_neg (by simp [hne])]
  refine Nat.lt_of_lt_of_le ?_
    (List.single_le_sum (fun x _ => Nat.zero_le x) _ (List.mem_map_of_mem _ hp))
  simp only []
  split
  · exact Nat.zero_lt_one
  · simp [hhit]

/-- **C8, amended**: for rules outside the forced-OCR allow-list (where the
page text is never refreshed mid-evaluation), a whole-page `forbid_any` hit
on the page's cleaned text guarantees `match_single_page_rule` returns
`False`.  (For allow-listed rules, a require-stage OCR retry can refresh the
text *after* the single forbid check — the companion counterexample.) -/
theorem C8_forbid_wins_without_retry (env : Env) (st : SpState) (ts : List String)
    (page_idx : Nat) (rule : Rule) (fps : List Pat) (p : Pat)
    (hnot : FORCE_OCR_RULES.contains rule.name = false)
    (hf : rule.forbid_any = some fps) (hp : p ∈ fps)
    (hhit : psearch env p (ts.getD page_idx "") = true) :
    (match_single_page_rule env st ts page_idx rule).1 = false := by
  have hforbid := pattern_hits_pos_of_whole env rule "forbid_any" fps page_idx ts p hp hhit
  have hd : decide (0 < _pattern_hits env rule "forbid_any" fps page_idx ts) = true := by
    simpa using hforbid
  unfold match_single_page_rule
  simp only [hf]
  cases hcues : rule.start.any_cues with
  | none => simp [hd]
  | some cues =>
    have hstage : singleCueHits env st ts page_idx rule "start.any_cues" cues
        = (_pattern_hits env rule "start.any_cues" cues page_idx ts, ts, st) := by
      unfold singleCueHits
      rw [hnot]
      simp
    simp only [hstage]
    by_cases h0 : _pattern_hits env rule "start.any_cues" cues page_idx ts = 0
    · simp [h0]
    · simp [h0, hd]

/-- The pattern oracle for the C8 counterexample: pattern 0 (`forbid_any`)
matches any text containing `FORB`; pattern 1 (`require_any`) matches any
text containing `REQ`. -/
def c8Env : Env :=
  { failEnv with
    msearch := fun p t =>
      if p = 0 then (if occursIn "FORB" t then some 0 else none)
      else if p = 1 then (if occursIn "REQ" t then some 0 else none)
      else none,
    ocrRun := fun _ _ _ _ =>
      ⟨false, none, some ("REQ FORB " ++ String.mk (List.replicate 80 'A'), none)⟩ }

/-- An allow-listed (forced-OCR) single-page rule whose `forbid_any` is
pattern 0 and `require_any` is pattern 1. -/
def c8Rule : Rule :=
  { name := "SSA IL", scope := "single_page",
    require_any := some [1], forbid_any := some [0] }

/-- **C8, counterexample**: with a thin initial page text, the require-stage
forced-OCR retry refreshes the text to one matching *both* `require_any` and
`forbid_any`; the forbid check is not re-run, so the page is classified as a
match even though its text (the very text that satisfied `require_any`)
matches a forbid pattern. -/
theorem C8_counterexample :
    (match_single_page_rule c8Env (SpState.fresh []) ["tiny"] 0 c8Rule).1 = true ∧
    psearch c8Env 0
      ((match_single_page_rule c8Env (SpState.fresh []) ["tiny"] 0 c8Rule).2.1.getD 0 "")
      = true ∧
    psearch c8Env 1
      ((match_single_page_rule c8Env (SpState.fresh []) ["tiny"] 0 c8Rule).2.1.getD 0 "")
      = true := by
  set_option maxRecDepth 8000 in refine ⟨rfl, rfl, rfl⟩

/-- **C8, witness**: the amended forbid-wins theorem at a concrete input:
a non-allow-listed rule with the same cue structure rejects the page whose
text contains the forbidden marker. -/
theorem C8_forbid_wins_witness :
    (match_single_page_rule c8Env (SpState.fresh []) ["REQ AND FORB TEXT"] 0
      { name := "Other Rule", scope := "single_page",
        require_any := some [1], forbid_any := some [0] }).1 = false :=
  C8_forbid_wins_without_retry c8Env (SpState.fresh []) ["REQ AND FORB TEXT"] 0
    { name := "Other Rule", scope := "single_page",
      require_any := some [1], forbid_any := some [0] }
    [0] 0 rfl rfl (by decide) rfl

/-! ## The dispatcher: `apply_rules_collect` -/

/-- `_suspect_pages` (Splitter.py lines 981-988): pages whose native text is
shorter than 100 characters. -/
def _suspect_pages (env : Env) : List Nat :=
  (List.range env.nPages).filter (fun i => (env.nativeText i).length < 100)

/-- The `for i in suspects` loop of `_opportunistic_ocr_suspects`
(lines 2053-2063). -/
def oppOcrGo (env : Env) (maxPages : Option Nat) (forceFull : Bool) :
    List Nat → Nat → SpState → SpState
  | [], _, st => st
  | i :: rest, done, st =>
    if (rawAt st i).length < 10 then
      let st' := if forceFull then _force_full_page_ocr env st i false none none
                 else _ocr_page_region_into_cache env st i "full" (9 / 10) none
      match maxPages with
      | some mp =>
        if mp ≤ done + 1 then st'
        else oppOcrGo env maxPages forceFull rest (done + 1) st'
      | none => oppOcrGo env maxPages forceFull rest (done + 1) st'
    else oppOcrGo env maxPages forceFull rest done st

/-- `_opportunistic_ocr_suspects` (lines 2050-2063). -/
def _opportunistic_ocr_suspects (env : Env) (st : SpState) (maxPages : Option Nat)
    (forceFull : Bool) : SpState :=
  oppOcrGo env maxPages forceFull (_suspect_pages env) 0 st

/-- `_detect_nav_sav_junk` (lines 2851-2864), the ignored-page set (the
display notes are dropped). -/
def _detect_nav_sav_junk (cleaned_texts : List String) : List Nat :=
  match cleaned_texts with
  | [] => []
  | first_page :: _ =>
    if occursIn "NAV SAV" first_page && occursIn "COMMERCIAL INSURANCE PROPOSAL" first_page then
      let span := min 20 cleaned_texts.length
      if decide (20 < cleaned_texts.length) &&
          occursIn "BROKER FEE AGREEMENT" (cleaned_texts.getD 20 "") then
        List.range span ++ [20]
      else List.range span
    else []

/-- `_collect_all_range_start_pats` (lines 1538-1546). -/
def _collect_all_range_start_pats (rules : List Rule) : List Pat :=
  rules.foldr (fun r acc =>
    if r.scope = "range" then (r.start.any_cues.getD []) ++ acc else acc) []

/-- `[_page_cleaned(pdf_path, i) for i in range(n)]` (line 2077), threading
the text-cache state through the comprehension. -/
def buildCleanedGo (env : Env) : List Nat → SpState → List String × SpState
  | [], st => ([], st)
  | i :: rest, st =>
    let pc := _page_cleaned env st i
    let r := buildCleanedGo env rest pc.2
    (pc.1 :: r.1, r.2)

/-- The accumulator of `apply_rules_collect` (lines 2080-2097): the mutable
locals of the dispatcher.  `ruleNameVar` is the Python local `rule_name`
(`none` = not yet bound); `crashed` records an uncaught `UnboundLocalError`
raised by reading it before first assignment (lines 2138 and 2153).
Progress/debug output is dropped; each `save_*` call is recorded in `saves`
as the page list and name it receives. -/
structure CollectAcc where
  ts : List String
  st : SpState
  taken : List Nat
  ignored : List Nat
  rangeMatches : List (Nat × Nat)
  singleMatches : List Nat
  dealerMatches : List (Nat × Nat × String × Bool)
  locationMatches : List (Nat × String)
  rangePrompts : List (Nat × Nat × Nat × String)
  singlePrompts : List (Nat × String)
  saves : List (List Nat × String)
  autoSaved : Nat
  ruleNameVar : Option String
  crashed : Bool

/-- Result of the start-backup logic (lines 2121-2162). -/
structure LbOut where
  start : Nat
  ts : List String
  st : SpState
  crashed : Bool

/-- The `lookback_header` start-backup block of `apply_rules_collect`
(lines 2128-2161); the caller has checked `lookback_header` and `start > 0`.
`rnv` is the current value of the Python local `rule_name`; the two forced-OCR
sub-branches read it before this function's rule ever assigns it, so `none`
there is an `UnboundLocalError` (lines 2138, 2153). -/
def lookbackHeaderStep (env : Env) (rnv : Option String) (rule : Rule)
    (ts : List String) (st : SpState) (i : Nat) : LbOut :=
  let fallback_cues := rule.start.fallback_cues
  let fallback_hits_current := match fallback_cues with
    | some fc => _hits env (ts.getD i "") fc
    | none => 0
  let prev_hits0 := match rule.start.any_cues with
    | some ac => _hits env (ts.getD (i - 1) "") ac
    | none => 0
  -- lines 2135-2141: forced refresh of the lookback page
  let s1 : Option (Nat × List String × SpState) :=
    if prev_hits0 = 0 ∧ FORCE_OCR_RANGE_RULES.contains rule.name then
      match rnv with
      | none => none
      | some rn =>
        let prev_seed := if i - 1 < ts.length then ts.getD (i - 1) "" else ""
        let st := _force_full_page_ocr env st (i - 1) false (some rn) (some prev_seed)
        let pc := _page_cleaned env st (i - 1)
        let ts := ts.set (i - 1) pc.1
        let ph := match rule.start.any_cues with
          | some ac => _hits env (ts.getD (i - 1) "") ac
          | none => 0
        some (ph, ts, pc.2)
    else some (prev_hits0, ts, st)
  match s1 with
  | none => ⟨i, ts, st, true⟩
  | some (ph1, ts, st) =>
    let prev_text := ts.getD (i - 1) ""
    -- lines 2143-2145
    let forbidPrev : Bool := match rule.start.lookback_prev_forbid with
      | some lf => decide (0 < _hits env prev_text lf)
      | none => false
    let prev_hits := if forbidPrev then 0 else ph1
    -- lines 2147-2158: fallback cues on the previous page
    let s2 : Option (Nat × List String × SpState) :=
      if prev_hits = 0 ∧ rule.start.fallback_to_previous = true ∧
          fallback_cues.isSome ∧ 0 < fallback_hits_current then
        let fp0 := match fallback_cues with
          | some fc => _hits env prev_text fc
          | none => 0
        if fp0 = 0 ∧ FORCE_OCR_RANGE_RULES.contains rule.name then
          match rnv with
          | none => none
          | some rn =>
            let prev_seed := if i - 1 < ts.length then ts.getD (i - 1) "" else ""
            let st := _force_full_page_ocr env st (i - 1) false (some rn) (some prev_seed)
            let pc := _page_cleaned env st (i - 1)
            let ts := ts.set (i - 1) pc.1
            let fp := match fallback_cues with
              | some fc => _hits env (ts.getD (i - 1) "") fc
              | none => 0
            let fp := if (match rule.start.lookback_prev_forbid with
                | some lf => decide (0 < _hits env (ts.getD (i - 1) "") lf)
                | none => false) then 0 else fp
            some (fp, ts, pc.2)
        else
          let fp := if (match rule.start.lookback_prev_forbid with
              | some lf => decide (0 < _hits env prev_text lf)
              | none => false) then 0 else fp0
          some (fp, ts, st)
      else some (0, ts, st)
    match s2 with
    | none => ⟨i, ts, st, true⟩
    | some (fallback_prev_hits, ts, st) =>
      -- lines 2160-2161
      if 0 < prev_hits ∨ 0 < fallback_prev_hits then ⟨i - 1, ts, st, false⟩
      else ⟨i, ts, st, false⟩

/-- The start-backup of a matched range start (lines 2123-2162): the
lookback-hint pop, then the `lookback_header` block. -/
def rangeStartBackup (env : Env) (rnv : Option String) (rule : Rule) (i : Nat)
    (ts : List String) (st : SpState) : LbOut :=
  let hintVal := mgetD st.lookbackHints (rule.name, i) false
  let st := { st with lookbackHints := mset st.lookbackHints (rule.name, i) false }
  if hintVal && decide (0 < i) then ⟨i - 1, ts, st, false⟩
  else if rule.start.lookback_header && decide (0 < i) then
    lookbackHeaderStep env rnv rule ts st i
  else ⟨i, ts, st, false⟩

/-- One matched-start iteration of the range-rule loop (lines 2120-2259):
start backup, prebatch/template bookkeeping, end detection, claiming the
range into `taken` and the dealer / preview / auto-save bookkeeping.
Returns the next page index (`end_idx + 1`) and the updated accumulator. -/
def rangeHit (env : Env) (rule : Rule) (all_pats self_pats : List Pat) (i : Nat)
    (acc : CollectAcc) (ts : List String) (st : SpState) : Nat × CollectAcc :=
  let lb := rangeStartBackup env acc.ruleNameVar rule i ts st
  if lb.crashed then
    (i, { acc with ts := lb.ts, st := lb.st, crashed := true })
  else
    let start := lb.start
    -- lines 2164-2168
    let pb :=
      if (_PREBATCH_RULES.lookup rule.name).isSome then
        _prebatch_rule_pages env lb.st rule.name lb.ts start
      else (lb.ts, lb.st)
    let st := if !rule.name.isEmpty then _maybe_save_template pb.2 rule.name start
              else pb.2
    -- lines 2169-2175
    let fre := find_range_end env st pb.1 start rule all_pats self_pats
    let end_idx := fre.1.1
    let hit_ok := fre.1.2.1
    let out_name := _tag_if_missed rule.output.filename (!hit_ok)
    let claimed := List.range' start (end_idx + 1 - start)
    let acc := { acc with
      ts := fre.2.1, st := fre.2.2, ruleNameVar := some rule.name,
      taken := claimed ++ acc.taken,
      rangeMatches := (start, end_idx) :: acc.rangeMatches }
    let acc :=
      if rule.name = "Dealer Application" ∧ rule.output.prompt = false then
        -- lines 2214-2223
        { acc with dealerMatches := acc.dealerMatches ++ [(start, end_idx, out_name, hit_ok)] }
      else if rule.output.prompt then
        -- lines 2234-2251
        let preview_page := match rule.output.preview_index with
          | some ri => max start (min end_idx (start + ri.toNat))
          | none => max start (min end_idx (start + rule.output.preview_offset.toNat))
        { acc with rangePrompts :=
            (start, end_idx, preview_page, out_name) :: acc.rangePrompts }
      else
        -- lines 2252-2257
        { acc with
          saves := (claimed, out_name) :: acc.saves,
          autoSaved := acc.autoSaved + 1 }
    (end_idx + 1, acc)

/-- The `while i < n` range-rule loop (lines 2108-2260), fuel-indexed. -/
def rangeLoop (env : Env) (rule : Rule) (all_pats self_pats : List Pat) (n : Nat) :
    Nat → Nat → CollectAcc → CollectAcc
  | 0, _, acc => acc
  | fuel + 1, i, acc =>
    if n ≤ i then acc
    else if i ∈ acc.taken then
      rangeLoop env rule all_pats self_pats n fuel (i + 1) acc
    else
      let m := match_range_start env acc.st acc.ts i rule
      if m.1 then
        let h := rangeHit env rule all_pats self_pats i
          { acc with ts := m.2.1, st := m.2.2 } m.2.1 m.2.2
        if h.2.crashed then h.2
        else rangeLoop env rule all_pats self_pats n fuel h.1 h.2
      else
        rangeLoop env rule all_pats self_pats n fuel (i + 1)
          { acc with ts := m.2.1, st := m.2.2 }

/-- The `for i in range(n)` single-page-rule loop (lines 2276-2306). -/
def singleLoop (env : Env) (rule : Rule) : List Nat → CollectAcc → CollectAcc
  | [], acc => acc
  | i :: rest, acc =>
    if i ∈ acc.taken then singleLoop env rule rest acc
    else
      let m := match_single_page_rule env acc.st acc.ts i rule
      if m.1 then
        let pfx := rule.output.filename
        let acc := { acc with
          ts := m.2.1, st := m.2.2, ruleNameVar := some rule.name,
          taken := i :: acc.taken, singleMatches := i :: acc.singleMatches }
        let acc :=
          if rule.name = "Location Page DA" ∧ rule.output.prompt = false then
            -- lines 2289-2295
            { acc with locationMatches := acc.locationMatches ++ [(i, pfx)] }
          else if rule.output.prompt then
            -- lines 2296-2300
            { acc with singlePrompts := (i, pfx) :: acc.singlePrompts }
          else
            -- lines 2301-2306
            { acc with
              saves := ([i], pfx) :: acc.saves, autoSaved := acc.autoSaved + 1 }
        singleLoop env rule rest acc
      else singleLoop env rule rest { acc with ts := m.2.1, st := m.2.2 }

/-- The Dealer Application / Location Page DA post-processing
(lines 2316-2337): each dealer range is saved merged with the next queued
location page when one exists; leftover location pages are saved single. -/
def dealerPost : List (Nat × Nat × String × Bool) → List (Nat × String) →
    CollectAcc → CollectAcc
  | [], locs, acc =>
    locs.foldl (fun acc l =>
      { acc with
        saves := ([l.1], l.2) :: acc.saves,
        autoSaved := acc.autoSaved + 1 }) acc
  | d :: ds, [], acc =>
    dealerPost ds []
      { acc with
        saves := (List.range' d.1 (d.2.1 + 1 - d.1), d.2.2.1) :: acc.saves,
        autoSaved := acc.autoSaved + 1 }
  | d :: ds, l :: ls, acc =>
    dealerPost ds ls
      { acc with
        saves := (List.range' d.1 (d.2.1 + 1 - d.1) ++ [l.1], d.2.2.1) :: acc.saves,
        autoSaved := acc.autoSaved + 1 }

/-- `apply_rules_collect` (Splitter.py lines 2066-2342): opportunistic OCR,
cleaned-text build, Nav-Sav junk skip, range phase, single phase and the
Dealer/Location post-processing.  Cancellation, the GUI pump and progress
callbacks are dropped (never set / pure output). -/
def apply_rules_collect (env : Env) (st : SpState) (rules : List Rule) : CollectAcc :=
  let n := env.nPages
  let suspect_max : Option Nat := if env.allowOcr then none else some 12
  let st := _opportunistic_ocr_suspects env st suspect_max env.allowOcr
  let bc := buildCleanedGo env (List.range n) st
  let ignored := _detect_nav_sav_junk bc.1
  let range_rules := rules.filter (fun r => r.scope = "range")
  let single_rules := rules.filter (fun r => r.scope = "single_page")
  let all_pats := _collect_all_range_start_pats rules
  let acc0 : CollectAcc :=
    { ts := bc.1, st := bc.2, taken := ignored, ignored := ignored,
      rangeMatches := [], singleMatches := [], dealerMatches := [],
      locationMatches := [], rangePrompts := [], singlePrompts := [],
      saves := [], autoSaved := 0, ruleNameVar := none, crashed := false }
  let accR := range_rules.foldl (fun acc rule =>
    if acc.crashed then acc
    else rangeLoop env rule all_pats (rule.start.any_cues.getD []) n (n + 1) 0 acc) acc0
  let accS := single_rules.foldl (fun acc rule =>
    if acc.crashed then acc else singleLoop env rule (List.range n) acc) accR
  if accS.crashed then accS
  else dealerPost accS.dealerMatches accS.locationMatches accS

/-! ### The page-claim bookkeeping invariant (C1 / C10) -/

theorem mem_claimed (s e p : Nat) (h1 : s ≤ p) (h2 : p ≤ e) :
    p ∈ List.range' s (e + 1 - s) := by
  rw [List.mem_range']
  exact ⟨p - s, by omega, by omega⟩

/-- The bookkeeping invariant on the four claim-tracking lists: pages of
every recorded range match sit in `taken`; single matches sit in `taken`,
avoid every range match, are pairwise distinct and avoid the ignored intro
pages; and the ignored pages themselves sit in `taken`. -/
def ClaimInvL (rm : List (Nat × Nat)) (sm taken ign : List Nat) : Prop :=
  (∀ q ∈ rm, ∀ p, q.1 ≤ p → p ≤ q.2 → p ∈ taken) ∧
  (∀ p ∈ sm, p ∈ taken) ∧
  (∀ p ∈ sm, ∀ q ∈ rm, ¬(q.1 ≤ p ∧ p ≤ q.2)) ∧
  sm.Nodup ∧
  (∀ p ∈ sm, p ∉ ign) ∧
  (∀ x ∈ ign, x ∈ taken)

/-- The invariant read off a dispatcher accumulator. -/
def ClaimInv (acc : CollectAcc) : Prop :=
  ClaimInvL acc.rangeMatches acc.singleMatches acc.taken acc.ignored

/-- Claiming a fresh range `[s, e]` (pages pushed into `taken` together with
the match record) preserves the invariant while no single match exists yet. -/
theorem ClaimInvL_add_range (rm : List (Nat × Nat)) (sm taken ign : List Nat)
    (s e : Nat) (h : ClaimInvL rm sm taken ign) (hs : sm = []) :
    ClaimInvL ((s, e) :: rm) sm (List.range' s (e + 1 - s) ++ taken) ign := by
  obtain ⟨h1, h2, h3, h4, h5, h6⟩ := h
  refine ⟨?_, ?_, ?_, h4, h5, ?_⟩
  · intro q hq p hp1 hp2
    rcases List.mem_cons.mp hq with rfl | hq'
    · exact List.mem_append_left _ (mem_claimed s e p hp1 hp2)
    · exact List.mem_append_right _ (h1 q hq' p hp1 hp2)
  · intro p hp
    exact List.mem_append_right _ (h2 p hp)
  · intro p hp
    exact absurd (hs ▸ hp) (List.not_mem_nil p)
  · intro x hx
    exact List.mem_append_right _ (h6 x hx)

/-- Claiming a fresh single page `i ∉ taken` preserves the invariant: the
page is new to every recorded match and to the ignored set. -/
theorem ClaimInvL_add_single (rm : List (Nat × Nat)) (sm taken ign : List Nat)
    (i : Nat) (h : ClaimInvL rm sm taken ign) (hni : i ∉ taken) :
    ClaimInvL rm (i :: sm) (i :: taken) ign := by
  obtain ⟨h1, h2, h3, h4, h5, h6⟩ := h
  refine ⟨?_, ?_, ?_, ?_, ?_, ?_⟩
  · intro q hq p hp1 hp2
    exact List.mem_cons_of_mem i (h1 q hq p hp1 hp2)
  · intro p hp
    rcases List.mem_cons.mp hp with rfl | hp'
    · exact List.mem_cons_self p taken
    · exact List.mem_cons_of_mem i (h2 p hp')
  · intro p hp q hq hcon
    rcases List.mem_cons.mp hp with rfl | hp'
    · exact hni (h1 q hq p hcon.1 hcon.2)
    · exact h3 p hp' q hq hcon
  · exact List.nodup_cons.mpr ⟨fun hmem => hni (h2 i hmem), h4⟩
  · intro p hp
    rcases List.mem_cons.mp hp with rfl | hp'
    · exact fun hig => hni (h6 p hig)
    · exact h5 p hp'
  · intro x hx
    exact List.mem_cons_of_mem i (h6 x hx)

/-- A matched range-start iteration preserves the invariant (and never mints
a single match). -/
theorem rangeHit_inv (env : Env) (rule : Rule) (ap sp : List Pat) (i : Nat)
    (acc : CollectAcc) (ts : List String) (st : SpState) (h : ClaimInv acc)
    (hs : acc.singleMatches = []) :
    ClaimInv (rangeHit env rule ap sp i acc ts st).2 ∧
      (rangeHit env rule ap sp i acc ts st).2.singleMatches = [] := by
  simp only [rangeHit]
  by_cases hcr : (rangeStartBackup env acc.ruleNameVar rule i ts st).crashed = true
  · rw [if_pos hcr]
    exact ⟨h, hs⟩
  · rw [if_neg hcr]
    by_cases hd : rule.name = "Dealer Application" ∧ rule.output.prompt = false
    · rw [if_pos hd]
      exact ⟨ClaimInvL_add_range acc.rangeMatches acc.singleMatches acc.taken
        acc.ignored _ _ h hs, hs⟩
    · rw [if_neg hd]
      by_cases hp : rule.output.prompt = true
      · rw [if_pos hp]
        exact ⟨ClaimInvL_add_range acc.rangeMatches acc.singleMatches acc.taken
          acc.ignored _ _ h hs, hs⟩
      · rw [if_neg hp]
        exact ⟨ClaimInvL_add_range acc.rangeMatches acc.singleMatches acc.taken
          acc.ignored _ _ h hs, hs⟩

/-- The whole range-rule loop preserves the invariant and mints no single
match. -/
theorem rangeLoop_inv (env : Env) (rule : Rule) (ap sp : List Pat) (n : Nat) :
    ∀ fuel i acc, ClaimInv acc → acc.singleMatches = [] →
      ClaimInv (rangeLoop env rule ap sp n fuel i acc) ∧
        (rangeLoop env rule ap sp n fuel i acc).singleMatches = [] := by
  intro fuel
  induction fuel with
  | zero => intro i acc h hs; exact ⟨h, hs⟩
  | succ m ih =>
    intro i acc h hs
    rw [rangeLoop]
    by_cases h1 : n ≤ i
    · rw [if_pos h1]
      exact ⟨h, hs⟩
    · rw [if_neg h1]
      by_cases h2 : i ∈ acc.taken
      · rw [if_pos h2]
        exact ih (i + 1) acc h hs
      · rw [if_neg h2]
        by_cases h3 : (match_range_start env acc.st acc.ts i rule).1 = true
        · rw [if_pos h3]
          have hr := rangeHit_inv env rule ap sp i
            { acc with ts := (match_range_start env acc.st acc.ts i rule).2.1,
                       st := (match_range_start env acc.st acc.ts i rule).2.2 }
            (match_range_start env acc.st acc.ts i rule).2.1
            (match_range_start env acc.st acc.ts i rule).2.2 h hs
          simp only []
          split
          · exact hr
          · exact ih _ _ hr.1 hr.2
        · rw [if_neg h3]
          exact ih (i + 1) _ h hs

/-- The whole single-page loop preserves the invariant. -/
theorem singleLoop_inv (env : Env) (rule : Rule) :
    ∀ idxs acc, ClaimInv acc → ClaimInv (singleLoop env rule idxs acc) := by
  intro idxs
  induction idxs with
  | nil => intro acc h; exact h
  | cons i rest ih =>
    intro acc h
    rw [singleLoop]
    by_cases hmem : i ∈ acc.taken
    · rw [if_pos hmem]
      exact ih acc h
    · rw [if_neg hmem]
      by_cases hm : (match_single_page_rule env acc.st acc.ts i rule).1 = true
      · rw [if_pos hm]
        simp only []
        have h1 : ClaimInvL acc.rangeMatches (i :: acc.singleMatches)
            (i :: acc.taken) acc.ignored :=
          ClaimInvL_add_single acc.rangeMatches acc.singleMatches acc.taken
            acc.ignored i h hmem
        by_cases hl : rule.name = "Location Page DA" ∧ rule.output.prompt = false
        · rw [if_pos hl]
          exact ih _ h1
        · rw [if_neg hl]
          by_cases hp : rule.output.prompt = true
          · rw [if_pos hp]
            exact ih _ h1
          · rw [if_neg hp]
            exact ih _ h1
      · rw [if_neg hm]
        exact ih _ h

/-- The leftover-location save fold of the post-processing leaves the claim
bookkeeping untouched. -/
theorem locFold_inv : ∀ (ls : List (Nat × String)) (acc : CollectAcc),
    ClaimInv acc →
    ClaimInv (ls.foldl (fun acc l =>
      { acc with
        saves := ([l.1], l.2) :: acc.saves,
        autoSaved := acc.autoSaved + 1 }) acc) := by
  intro ls
  induction ls with
  | nil => intro acc h; exact h
  | cons l rest ih =>
    intro acc h
    rw [List.foldl_cons]
    exact ih _ h

/-- The Dealer/Location post-processing leaves the claim bookkeeping
untouched. -/
theorem dealerPost_inv : ∀ (ds : List (Nat × Nat × String × Bool))
    (ls : List (Nat × String)) (acc : CollectAcc), ClaimInv acc →
    ClaimInv (dealerPost ds ls acc) := by
  intro ds
  induction ds with
  | nil =>
    intro ls acc h
    exact locFold_inv ls acc h
  | cons d rest ih =>
    intro ls acc h
    cases ls with
    | nil => exact ih [] _ h
    | cons l rest2 => exact ih rest2 _ h

/-- The range phase over a rule list preserves the invariant. -/
theorem rangePhase_inv (env : Env) (ap : List Pat) (n : Nat) :
    ∀ (rl : List Rule) (acc : CollectAcc), ClaimInv acc → acc.singleMatches = [] →
      ClaimInv (rl.foldl (fun acc rule => if acc.crashed then acc
        else rangeLoop env rule ap (rule.start.any_cues.getD []) n (n + 1) 0 acc) acc) ∧
      (rl.foldl (fun acc rule => if acc.crashed then acc
        else rangeLoop env rule ap (rule.start.any_cues.getD []) n (n + 1) 0 acc)
          acc).singleMatches = [] := by
  intro rl
  induction rl with
  | nil => intro acc h hs; exact ⟨h, hs⟩
  | cons r rest ih =>
    intro acc h hs
    rw [List.foldl_cons]
    by_cases hc : acc.crashed = true
    · rw [if_pos hc]
      exact ih acc h hs
    · rw [if_neg hc]
      have hr := rangeLoop_inv env r ap (r.start.any_cues.getD []) n (n + 1) 0 acc h hs
      exact ih _ hr.1 hr.2

/-- The single-page phase over a rule list preserves the invariant. -/
theorem singlePhase_inv (env : Env) (n : Nat) :
    ∀ (rl : List Rule) (acc : CollectAcc), ClaimInv acc →
      ClaimInv (rl.foldl (fun acc rule => if acc.crashed then acc
        else singleLoop env rule (List.range n) acc) acc) := by
  intro rl
  induction rl with
  | nil => intro acc h; exact h
  | cons r rest ih =>
    intro acc h
    rw [List.foldl_cons]
    by_cases hc : acc.crashed = true
    · rw [if_pos hc]
      exact ih acc h
    · rw [if_neg hc]
      exact ih _ (singleLoop_inv env r (List.range n) acc h)

/-- The invariant holds of the freshly initialised accumulator (pages
ignored by the junk detector are exactly the initial `taken`). -/
theorem ClaimInvL_init (ign : List Nat) : ClaimInvL [] [] ign ign :=
  ⟨fun q hq => absurd hq (List.not_mem_nil q),
   fun p hp => absurd hp (List.not_mem_nil p),
   fun p hp => absurd hp (List.not_mem_nil p),
   List.nodup_nil,
   fun p hp => absurd hp (List.not_mem_nil p),
   fun _ hx => hx⟩

/-- The phase pipeline (range fold, single fold, post-processing) preserves
the invariant from any claim-free starting accumulator. -/
theorem collect_tail_inv (env : Env) (n : Nat) (rules : List Rule)
    (acc : CollectAcc) (h : ClaimInv acc) (hs : acc.singleMatches = []) :
    ClaimInv (
      let accR := (rules.filter (fun r => r.scope = "range")).foldl (fun acc rule =>
        if acc.crashed then acc
        else rangeLoop env rule (_collect_all_range_start_pats rules)
          (rule.start.any_cues.getD []) n (n + 1) 0 acc) acc
      let accS := (rules.filter (fun r => r.scope = "single_page")).foldl (fun acc rule =>
        if acc.crashed then acc else singleLoop env rule (List.range n) acc) accR
      if accS.crashed then accS
      else dealerPost accS.dealerMatches accS.locationMatches accS) := by
  have hA := rangePhase_inv env (_collect_all_range_start_pats rules) n
    (rules.filter (fun r => r.scope = "range")) acc h hs
  have hB := singlePhase_inv env n (rules.filter (fun r => r.scope = "single_page")) _ hA.1
  simp only []
  split
  · exact hB
  · exact dealerPost_inv _ _ _ hB

/-- The claim bookkeeping invariant holds of every completed (or crashed)
dispatcher run. -/
theorem apply_rules_collect_inv (env : Env) (st : SpState) (rules : List Rule) :
    ClaimInv (apply_rules_collect env st rules) :=
  collect_tail_inv env env.nPages rules _ (ClaimInvL_init _) rfl

/-- **C1, amended**: matches are *not* pairwise disjoint in general — two
range matches can overlap (the counterexample): the start scan only tests
the start page against `taken`, and the forward end scan runs across
already-claimed pages.  What does hold after every rule pass: every
single-page match is disjoint from every range match, and single-page
matches are pairwise distinct. -/
theorem C1_single_matches_disjoint (env : Env) (st : SpState) (rules : List Rule) :
    (∀ p ∈ (apply_rules_collect env st rules).singleMatches,
      ∀ q ∈ (apply_rules_collect env st rules).rangeMatches, ¬(q.1 ≤ p ∧ p ≤ q.2)) ∧
    (apply_rules_collect env st rules).singleMatches.Nodup := by
  have h := apply_rules_collect_inv env st rules
  exact ⟨h.2.2.1, h.2.2.2.1⟩

/-- A ~100-character page filler (long enough to dodge the suspect-page and
low-text OCR paths). -/
def zs100 : String := String.mk (List.replicate 100 'Z')

/-- A 4-page binder for the overlap counterexample: rule A's cues sit on
pages 2 (start) and 3 (end); rule B's on pages 0 (start) and 3 (end). -/
def c1Env : Env :=
  { failEnv with
    nPages := 4, allowOcr := false,
    msearch := fun p t =>
      if p = 1 then (if occursIn "ASTART" t then some 0 else none)
      else if p = 2 then (if occursIn "AEND" t then some 0 else none)
      else if p = 3 then (if occursIn "BSTART" t then some 0 else none)
      else if p = 4 then (if occursIn "BEND" t then some 0 else none)
      else none,
    nativeText := fun i =>
      if i = 0 then "BSTART " ++ zs100
      else if i = 2 then "ASTART " ++ zs100
      else if i = 3 then "AEND BEND " ++ zs100
      else zs100 }

def c1RuleA : Rule :=
  { name := "A", scope := "range",
    start := { any_cues := some [1] }, rend := { first_cue := some [2] } }

def c1RuleB : Rule :=
  { name := "B", scope := "range",
    start := { any_cues := some [3] }, rend := { first_cue := some [4] } }

/-- **C1, counterexample**: rule A claims pages `[2, 3]`; rule B, evaluated
afterwards, starts on the unclaimed page 0 and its forward end scan runs to
page 3 — the recorded match `[0, 3]` re-claims pages 2 and 3.  Two distinct
range matches overlap, refuting the pairwise-disjointness claim. -/
theorem C1_counterexample :
    (apply_rules_collect c1Env (SpState.fresh []) [c1RuleA, c1RuleB]).rangeMatches
      = [(0, 3), (2, 3)] ∧
    ((0 : Nat) ≤ 2 ∧ (2 : Nat) ≤ 3) ∧ ((2 : Nat) ≤ 2 ∧ (2 : Nat) ≤ 3) := by
  refine ⟨?_, by decide, by decide⟩
  set_option maxRecDepth 16000 in rfl

/-- **C1, witness**: the amended disjointness theorem at the concrete
4-page binder of the counterexample run. -/
theorem C1_single_matches_disjoint_witness :
    (∀ p ∈ (apply_rules_collect c1Env (SpState.fresh []) [c1RuleA, c1RuleB]).singleMatches,
      ∀ q ∈ (apply_rules_collect c1Env (SpState.fresh []) [c1RuleA, c1RuleB]).rangeMatches,
        ¬(q.1 ≤ p ∧ p ≤ q.2)) ∧
    (apply_rules_collect c1Env (SpState.fresh []) [c1RuleA, c1RuleB]).singleMatches.Nodup :=
  C1_single_matches_disjoint c1Env (SpState.fresh []) [c1RuleA, c1RuleB]

/-- **C10, amended**: the Nav-Sav intro pages are in `taken` from before any
rule is evaluated and stay there (conjunct 1); no *single-page* match ever
lands on an ignored page (conjunct 2); and the detector marks the first
`min(20, N)` pages, plus page 20 when it carries the broker-fee marker
(conjunct 3).  A *range* match can still claim an ignored page via the
lookback start backup — the counterexample — so "no rule can ever match any
of those pages" is too strong. -/
theorem C10_nav_sav_skip (env : Env) (st : SpState) (rules : List Rule) :
    (∀ x ∈ (apply_rules_collect env st rules).ignored,
        x ∈ (apply_rules_collect env st rules).taken) ∧
    (∀ p ∈ (apply_rules_collect env st rules).singleMatches,
        p ∉ (apply_rules_collect env st rules).ignored) ∧
    (∀ cl : List String, occursIn "NAV SAV" (cl.getD 0 "") = true →
      occursIn "COMMERCIAL INSURANCE PROPOSAL" (cl.getD 0 "") = true →
      (∀ p, p < min 20 cl.length → p ∈ _detect_nav_sav_junk cl) ∧
      (20 < cl.length → occursIn "BROKER FEE AGREEMENT" (cl.getD 20 "") = true →
        20 ∈ _detect_nav_sav_junk cl)) := by
  have h := apply_rules_collect_inv env st rules
  refine ⟨h.2.2.2.2.2, h.2.2.2.2.1, ?_⟩
  intro cl h1 h2
  cases cl with
  | nil =>
    constructor
    · intro p hp
      simp at hp
    · intro h20
      simp at h20
  | cons a rest =>
    have h1' : occursIn "NAV SAV" a = true := h1
    have h2' : occursIn "COMMERCIAL INSURANCE PROPOSAL" a = true := h2
    simp only [_detect_nav_sav_junk]
    rw [if_pos (show (occursIn "NAV SAV" a &&
      occursIn "COMMERCIAL INSURANCE PROPOSAL" a) = true by rw [h1', h2']; rfl)]
    constructor
    · intro p hp
      split
      · exact List.mem_append_left _ (List.mem_range.mpr hp)
      · exact List.mem_range.mpr hp
    · intro h20 hbf
      split
      · exact List.mem_append_right _ (by simp)
      · rename_i hcond2
        exfalso
        apply hcond2
        rw [hbf]
        simp only [Bool.and_true, decide_eq_true_eq]
        exact h20

/-- A 22-page Nav-Sav binder: page 0 carries both junk markers, the range
rule's start cue sits on pages 19 and 20, its end cue on page 21. -/
def c10Env : Env :=
  { failEnv with
    nPages := 22, allowOcr := false,
    msearch := fun p t =>
      if p = 1 then (if occursIn "RSTART" t then some 0 else none)
      else if p = 2 then (if occursIn "REND" t then some 0 else none)
      else none,
    nativeText := fun i =>
      if i = 0 then "NAV SAV COMMERCIAL INSURANCE PROPOSAL " ++ zs100
      else if i = 19 then "RSTART " ++ zs100
      else if i = 20 then "RSTART " ++ zs100
      else if i = 21 then "REND " ++ zs100
      else zs100 }

/-- A lookback-header range rule for the Nav-Sav counterexample. -/
def c10Rule : Rule :=
  { name := "R", scope := "range",
    start := { any_cues := some [1], lookback_header := true },
    rend := { first_cue := some [2] } }

/-- **C10, counterexample**: pages 0-19 are ignored (and taken) before any
rule runs, yet the rule matches its start cue on page 20 and the
`lookback_header` backup moves the start onto the *ignored* page 19: the
recorded (and saved) range `[19, 21]` claims an ignored page, refuting
"no rule (range or single-page) can ever match or save any of those
pages". -/
theorem C10_counterexample :
    (apply_rules_collect c10Env (SpState.fresh []) [c10Rule]).rangeMatches = [(19, 21)] ∧
    (apply_rules_collect c10Env (SpState.fresh []) [c10Rule]).ignored = List.range 20 ∧
    (19 : Nat) ∈ List.range 20 := by
  refine ⟨?_, ?_, by decide⟩
  · set_option maxRecDepth 64000 in rfl
  · set_option maxRecDepth 64000 in rfl

/-- **C10, witness**: the amended theorem at the concrete 22-page Nav-Sav
binder of the counterexample run. -/
theorem C10_nav_sav_skip_witness :
    (∀ x ∈ (apply_rules_collect c10Env (SpState.fresh []) [c10Rule]).ignored,
        x ∈ (apply_rules_collect c10Env (SpState.fresh []) [c10Rule]).taken) ∧
    (∀ p ∈ (apply_rules_collect c10Env (SpState.fresh []) [c10Rule]).singleMatches,
        p ∉ (apply_rules_collect c10Env (SpState.fresh []) [c10Rule]).ignored) ∧
    (∀ cl : List String, occursIn "NAV SAV" (cl.getD 0 "") = true →
      occursIn "COMMERCIAL INSURANCE PROPOSAL" (cl.getD 0 "") = true →
      (∀ p, p < min 20 cl.length → p ∈ _detect_nav_sav_junk cl) ∧
      (20 < cl.length → occursIn "BROKER FEE AGREEMENT" (cl.getD 20 "") = true →
        20 ∈ _detect_nav_sav_junk cl)) :=
  C10_nav_sav_skip c10Env (SpState.fresh []) [c10Rule]

end Splitter
